import Mathlib

/-!
Verification development for the primap2 data-munging layer: a shallow
embedding of `primap2/_alias_selection.py` and `primap2/pm2io/_data_reading.py`
into Lean, together with theorems about the embedded operations.

Modelling conventions:
* pandas `DataFrame`s become `DFrame`: an ordered list of column names plus
  a list of (index, row) pairs, a row being an association list from column
  name to cell value, aligned with the column list.
* cell values (`Value`) are strings, rationals (standing in for floats), or
  the missing value NaN.
* in-place mutation of a DataFrame becomes explicit state passing: a Python
  function mutating its argument is embedded as a function returning the new
  state of that argument.
* external collaborators (the pint unit registry, the `datetime` parser, the
  `_conversion` translation functions) are parameters of the embedding.
-/

/-- A cell value of a table: a string, a number (floats are modelled as
rationals), or the missing value (NaN). -/
inductive Value where
  | str (s : String)
  | num (q : ℚ)
  | na
deriving DecidableEq

/-- Rational multiplication in a kernel-computable form (provably equal to
`*`, see `qmul_eq_mul`). -/
def qmul (a b : ℚ) : ℚ := mkRat (a.num * b.num) (a.den * b.den)

/-- Multiplication of a cell by a scalar, as in `df.loc[mask, cols] *= factor`:
numbers are multiplied, NaN stays NaN, strings are untouched. -/
def Value.scale (f : ℚ) : Value → Value
  | .num q => .num (qmul q f)
  | .na => .na
  | .str s => .str s

/-- Rank of the constructor, used to order values of different kinds. -/
def Value.rank : Value → ℕ
  | .str _ => 0
  | .num _ => 1
  | .na => 2

/-- Lexicographic order on char lists: the comparison Python uses on
strings (code-point lexicographic). -/
def lexCharLe : List Char → List Char → Bool
  | [], _ => true
  | _ :: _, [] => false
  | a :: as, b :: bs => if a = b then lexCharLe as bs else decide (a < b)

/-- Total comparison of cell values: strings by lexicographic order, numbers
numerically, values of different kinds by constructor rank. This models the
ordering used by `sort_values` on homogeneous metadata columns. -/
def Value.le (a b : Value) : Bool :=
  match a, b with
  | .str s, .str t => lexCharLe s.toList t.toList
  | .num p, .num q => decide (p ≤ q)
  | a, b => decide (a.rank ≤ b.rank)

/-- A row of a table: an association list from column name to cell value,
kept aligned with the frame's column list. -/
abbrev Row : Type := List (String × Value)

/-- `getCell r c` reads column `c` of row `r` (first binding wins, like an
ordinary dict); absent columns read as NaN. -/
def getCell : Row → String → Value
  | [], _ => .na
  | (k, v) :: r, c => if k = c then v else getCell r c

/-- `setCell c v r` writes value `v` into column `c` of row `r`, as in
`df.loc[mask, c] = v` restricted to one row. -/
def setCell (c : String) (v : Value) : Row → Row
  | [] => []
  | (k, w) :: r => (k, if k = c then v else w) :: setCell c v r

/-- `scaleRow cols f r` multiplies the cells of `r` in the columns `cols` by
`f`, as in `df.loc[mask, cols] *= f` restricted to one row. -/
def scaleRow (cols : List String) (f : ℚ) : Row → Row
  | [] => []
  | (k, w) :: r => (k, if k ∈ cols then Value.scale f w else w) :: scaleRow cols f r

/-- `selectCols cols r` projects row `r` onto the column list `cols` in that
order, as in `df[cols]` restricted to one row. -/
def selectCols (cols : List String) (r : Row) : Row :=
  cols.map fun c => (c, getCell r c)

/-- The keys of a row, in order. -/
def rowKeys (r : Row) : List String := r.map Prod.fst

/-- Lexicographic comparison of two tuples of cell values, modelling the key
comparison of `DataFrame.sort_values(by=...)`. -/
def lexLe : List Value → List Value → Bool
  | [], _ => true
  | _ :: _, [] => false
  | a :: as, b :: bs => if a = b then lexLe as bs else Value.le a b

/-- An indexed table: ordered column names plus (pandas index, row) pairs.
Rows are kept aligned with `cols` (same keys, same order). -/
structure DFrame where
  cols : List String
  rows : List (ℕ × Row)
deriving DecidableEq

/-- The sort key of an indexed row: its values in the given columns,
in order. -/
def rowKey (cols : List String) (ir : ℕ × Row) : List Value :=
  cols.map (getCell ir.2)

/-- Row comparison used by `sort_values(by=cols)`: lexicographic on the
values in `cols` (the pandas index does not participate). -/
def rowLe (cols : List String) (a b : ℕ × Row) : Bool :=
  lexLe (rowKey cols a) (rowKey cols b)

/-- Insert an element into a list just before the first element it compares
`le` to (the insertion step of a stable insertion sort). -/
def insertSorted {α : Type} (le : α → α → Bool) (x : α) : List α → List α
  | [] => [x]
  | y :: ys => if le x y then x :: y :: ys else y :: insertSorted le x ys

/-- Stable sort by the boolean relation `le` (structural insertion sort;
models Python's stable `sorted` and the row sort of `sort_values`). -/
def sortBy {α : Type} (le : α → α → Bool) : List α → List α
  | [] => []
  | x :: xs => insertSorted le x (sortBy le xs)

/-- Boolean string order used to model Python's `sorted` on column names
(code-point lexicographic). -/
def strLe (a b : String) : Bool := lexCharLe a.toList b.toList

/-- `sorted(l)` on strings. -/
def sortStrings (l : List String) : List String := sortBy strLe l

/-- `reset_index(drop=True)`: renumber the rows 0,1,2,... keeping their
order and content. -/
def resetIndex (rows : List (ℕ × Row)) : List (ℕ × Row) :=
  (rows.map Prod.snd).enum

/-- `sort_values(by=cols)` modelled as a stable sort on the row keys. -/
def sortRows (cols : List String) (rows : List (ℕ × Row)) : List (ℕ × Row) :=
  sortBy (rowLe cols) rows

/-- Modelled from the spec: `INTERCHANGE_FORMAT_MANDATORY_COLUMNS` from
`primap2/pm2io/_interchange_format.py`, which is not part of the sources under
verification. Spec §4.2 step 1: the mandatory dimensions are area, category,
entity and unit (plus a time axis or data column depending on layout, which is
not checked through this constant). -/
def INTERCHANGE_FORMAT_MANDATORY_COLUMNS : List String :=
  ["area", "category", "entity", "unit"]

/-- Modelled from the spec: `INTERCHANGE_FORMAT_OPTIONAL_COLUMNS` from
`primap2/pm2io/_interchange_format.py`, which is not part of the sources under
verification. Spec §4.2 step 10 additionally names scenario among the
recognized interchange-format columns. -/
def INTERCHANGE_FORMAT_OPTIONAL_COLUMNS : List String :=
  ["scenario"]

/-- Modelled from the spec: `INTERCHANGE_FORMAT_COLUMN_ORDER` from
`primap2/pm2io/_interchange_format.py`, which is not part of the sources under
verification. Spec §4.2 step 10: "columns ordered by a fixed canonical
priority list (area, then category ..., scenario, entity, unit, ...)". -/
def INTERCHANGE_FORMAT_COLUMN_ORDER : List String :=
  ["area", "category", "scenario", "entity", "unit"]

/-- Python's `s.startswith(pat)`, char-list based. -/
def startsWithL (s pat : String) : Bool :=
  pat.toList.isPrefixOf s.toList

/-- The column-match test of `sort_columns_and_rows`:
`ocol == col or ocol.startswith(f"{col} (")`. -/
def matchesCol (ocol col : String) : Bool :=
  ocol == col || startsWithL ocol (col ++ " (")

/-- The double loop of `sort_columns_and_rows` that walks the canonical
column-order list and pulls, for each canonical name, the first matching
column out of `other_cols`; returns the picked columns in canonical order
and the leftover columns. -/
def pickMatches : List String → List String → List String × List String
  | [], other => ([], other)
  | c :: order, other =>
    match other.find? (fun ocol => matchesCol ocol c) with
    | some ocol =>
      let p := pickMatches order (other.erase ocol)
      (ocol :: p.1, p.2)
    | none => pickMatches order other

/-- The `cols_sorted` list built by `sort_columns_and_rows`: the dimension
columns matched against `INTERCHANGE_FORMAT_COLUMN_ORDER` in canonical order,
followed by the unmatched dimension columns sorted alphabetically. -/
def colsSortedOf (dims : List String) : List String :=
  (pickMatches INTERCHANGE_FORMAT_COLUMN_ORDER dims).1 ++
    sortStrings (pickMatches INTERCHANGE_FORMAT_COLUMN_ORDER dims).2

/-- The full output column list of `sort_columns_and_rows`: `cols_sorted`
followed by the time columns (`set(cols) - set(dimensions)`, here an
order-preserving filter; it is sorted right after) in sorted order. -/
def newColsOf (cols dims : List String) : List String :=
  colsSortedOf dims ++ sortStrings (cols.filter (fun c => !(dims.contains c)))

/-- Embedding of `sort_columns_and_rows` (`_data_reading.py`): order the
columns canonically per `INTERCHANGE_FORMAT_COLUMN_ORDER` (leftover dimension
columns sorted alphabetically, then the time columns sorted), sort the rows by
the ordered dimension columns, reset the index; returns the sorted frame and
the ordered dimension list. -/
def sort_columns_and_rows (data : DFrame) (dimensions : List String) :
    DFrame × List String :=
  (⟨newColsOf data.cols dimensions,
     resetIndex (sortRows (colsSortedOf dimensions)
       (data.rows.map fun ir =>
         (ir.1, selectCols (newColsOf data.cols dimensions) ir.2)))⟩,
   colsSortedOf dimensions)

/-- Python's `pat in s` substring test, char-list based. -/
def strContainsSub (s pat : String) : Bool :=
  s.toList.tails.any fun t => pat.toList.isPrefixOf t

/-- The alias key computed by `dim_alias_translations`:
`dim.split("(")[0][:-1]`, i.e. the text before the first `(` with its final
character removed (char-list model of `str.split`). -/
def keyOf (d : String) : String :=
  String.mk ((d.toList.takeWhile fun c => c ≠ '(').dropLast)

/-- Python dict assignment `m[k] = v` on an association list: overwrite the
existing binding in place, else append. -/
def dictInsert (m : List (String × String)) (k v : String) :
    List (String × String) :=
  if (m.lookup k).isSome then
    m.map fun kv => (kv.1, if kv.1 = k then v else kv.2)
  else m ++ [(k, v)]

/-- Embedding of `DataArrayAliasSelectionAccessor.dim_alias_translations`
(`_alias_selection.py`): from the array's axis names only, for every axis
name containing `" ("`, bind `dim.split("(")[0][:-1]` to the full axis name.
(The `isinstance(dim, str)` guard is implicit: axis names are strings here.) -/
def dim_alias_translations (dims : List String) : List (String × String) :=
  dims.foldl
    (fun ret d =>
      if strContainsSub d " (" then dictInsert ret (keyOf d) d else ret)
    []

/-- Embedding of `translate` from `_alias_selection.py` for a single name:
`translations.get(item, item)`. -/
def translateKey (translations : List (String × String)) (k : String) : String :=
  (translations.lookup k).getD k

/-- Embedding of `translate` from `_alias_selection.py` for a mapping
argument: substitute every key through the lookup, values untouched. -/
def translateMap (item : List (String × Value))
    (translations : List (String × String)) : List (String × Value) :=
  item.map fun kv => (translateKey translations kv.1, kv.2)

/-- Embedding of `alias` (`_alias_selection.py`) for a single dimension name:
resolve through `translations`, then fail with `DimensionNotExistingError`
(carrying the offending resolved name) unless the result is in `dims`. -/
def aliasStr (dim : String) (translations : List (String × String))
    (dims : List String) : Except String String :=
  let d := translateKey translations dim
  if d ∈ dims then .ok d else .error d

/-- Embedding of `alias` for a sequence of dimension names: each element is
resolved and validated independently, in order; the first failure aborts. -/
def aliasList (l : List String) (translations : List (String × String))
    (dims : List String) : Except String (List String) :=
  match l with
  | [] => .ok []
  | d :: rest => do
    let r ← aliasStr d translations dims
    let rs ← aliasList rest translations dims
    .ok (r :: rs)

/-- Errors raised by the conversion pipeline (the payload carries the
offending dimension names / columns, as the `ValueError` messages do). -/
inductive ConvError where
  | mandatoryMissing (dim : String)
  | overlappingSpec (dims : List String)
  | overlappingAddCols (cols : List String)
  | missingColumns (cols : List String)
  | unknownDefaultCoord (coord : String)
  | addCoordHasTerminology (coord : String)
  | addCoordUnknownCoord (coord : String)
deriving DecidableEq

/-- The `sec_cats__` marker (`SEC_CATS_PREFIX` in the source, renamed here). -/
def SEC_CATS_LEAD : String := "sec_cats__"

/-- The recognized missing-value tokens (`NA_VALUES` in the source); used by
the external CSV reader, recorded here for reference. -/
def NA_VALUES : List String :=
  ["nan", "NE", "-", "NA, NE", "NO,NE", "NA,NE", "NE,NO", "NE0", "NO, NE"]

/-- Embedding of `check_mandatory_dimensions`: fail on the first mandatory
dimension found in neither `coords_cols` nor `coords_defaults`. -/
def check_mandatory_dimensions (coordsCols : List (String × String))
    (coordsDefaults : List (String × Value)) : Except ConvError Unit :=
  match INTERCHANGE_FORMAT_MANDATORY_COLUMNS.find? (fun coord =>
      !(coordsCols.lookup coord).isSome && !(coordsDefaults.lookup coord).isSome) with
  | some coord => .error (.mandatoryMissing coord)
  | none => .ok ()

/-- Embedding of `check_overlapping_specifications`: fail if any dimension is
given in both `coords_cols` and `coords_defaults` (the payload lists the
intersection). -/
def check_overlapping_specifications (coordsCols : List (String × String))
    (coordsDefaults : List (String × Value)) : Except ConvError Unit :=
  let both := (coordsCols.map Prod.fst).filter
    (fun k => (coordsDefaults.lookup k).isSome)
  if both.isEmpty then .ok () else .error (.overlappingSpec both)

/-- Embedding of `check_overlapping_specifications_add_cols`: fail if an
auxiliary-coordinate source column is also a dimension source column.
`add_coords_cols` entries are (coordinate name, source column, owning dim). -/
def check_overlapping_specifications_add_cols
    (coordsCols : List (String × String))
    (addCoordsCols : List (String × String × String)) : Except ConvError Unit :=
  let colsAdd := addCoordsCols.map fun a => a.2.1
  let both := (coordsCols.map Prod.snd).filter (fun c => colsAdd.contains c)
  if both.isEmpty then .ok () else .error (.overlappingAddCols both)

/-- Modelled collaborator: `matches_time_format` via `datetime.strptime`.
Only the `"%Y"` format (the default for wide input, used by all claims) is
modelled: a string parses as `%Y` iff it is 1-4 digits denoting a year ≥ 1. -/
def matches_time_format (value timeFormat : String) : Bool :=
  if timeFormat = "%Y" then
    decide (1 ≤ value.length) && decide (value.length ≤ 4) &&
      value.toList.all Char.isDigit && value.toList.any (fun c => c ≠ '0')
  else false

/-- `pd.to_numeric(col, errors="coerce")` on one cell: numbers survive,
everything else becomes NaN (the CSV reader already typed numeric-looking
entries as numbers). -/
def numCoerce : Value → Value
  | .num q => .num q
  | _ => .na

/-- Coerce the given columns of a row to numeric. -/
def coerceCols (cols : List String) (r : Row) : Row :=
  r.map fun kv => (kv.1, if kv.1 ∈ cols then numCoerce kv.2 else kv.2)

/-- Embedding of `read_wide_csv` (`_data_reading.py`), starting from the
already-parsed CSV as a table (the `pd.read_csv` call with `NA_VALUES` is the
external collaborator): detect time columns via the time format, coerce their
values to numeric, drop all columns not referenced by the specification and
not time columns, and fail naming the missing columns if any `coords_cols`
source column was absent. -/
def read_wide_csv (csv : DFrame) (coordsCols : List (String × String))
    (addCoordsCols : List (String × String × String)) (timeFormat : String) :
    Except ConvError (DFrame × List String) :=
  let timeCols := csv.cols.filter fun c => matches_time_format c timeFormat
  let rows1 := csv.rows.map fun ir => (ir.1, coerceCols timeCols ir.2)
  let specCols := coordsCols.map Prod.snd
  let addColNames := addCoordsCols.map fun a => a.2.1
  let newCols := csv.cols.filter fun c =>
    specCols.contains c || addColNames.contains c || timeCols.contains c
  let dropped : DFrame := ⟨newCols, rows1.map fun ir => (ir.1, selectCols newCols ir.2)⟩
  let missing := specCols.filter fun c => !(newCols.contains c)
  if missing.isEmpty then .ok (dropped, timeCols)
  else .error (.missingColumns missing)

/-- One condition of a row filter: column = single value, or column ∈ list. -/
inductive FilterVal where
  | single (v : Value)
  | several (vs : List Value)
deriving DecidableEq

/-- A named filter's conditions (the filter names are irrelevant and dropped):
all conditions must hold for the filter to match a row, exactly as the `&`
query built by `spec_to_query_string`. -/
abbrev FilterSpec := List (String × FilterVal)

/-- A filter matches a row iff all its column conditions hold. -/
def matchesSpec (spec : FilterSpec) (r : Row) : Bool :=
  spec.all fun cf =>
    match cf.2 with
    | .single v => getCell r cf.1 == v
    | .several vs => vs.contains (getCell r cf.1)

/-- Embedding of `filter_data` (`_data_reading.py`): if keep filters are
given, keep the rows matching at least one of them; then, if removal filters
are given, keep the rows matching none of them; finally reset the index. -/
def filter_data (data : DFrame) (filterKeep filterRemove : List FilterSpec) :
    DFrame :=
  let rows1 := if filterKeep.isEmpty then data.rows
    else data.rows.filter fun ir => filterKeep.any fun spec => matchesSpec spec ir.2
  let rows2 := if filterRemove.isEmpty then rows1
    else rows1.filter fun ir => filterRemove.all fun spec => !(matchesSpec spec ir.2)
  ⟨data.cols, resetIndex rows2⟩

/-- `data[coord] = value`: overwrite an existing column in place, else append
a new constant column. -/
def addColumn (df : DFrame) (c : String) (v : Value) : DFrame :=
  if df.cols.contains c then
    ⟨df.cols, df.rows.map fun ir => (ir.1, setCell c v ir.2)⟩
  else ⟨df.cols ++ [c], df.rows.map fun ir => (ir.1, ir.2 ++ [(c, v)])⟩

/-- Embedding of `add_dimensions_from_defaults`: add a constant column per
default; fail if a default coordinate is neither a recognized
interchange-format column nor `sec_cats__`-marked. -/
def add_dimensions_from_defaults (df : DFrame)
    (coordsDefaults : List (String × Value))
    (additionalAllowedCoords : List String) : Except ConvError DFrame :=
  match coordsDefaults with
  | [] => .ok df
  | (coord, v) :: rest =>
    if coord ∈ INTERCHANGE_FORMAT_OPTIONAL_COLUMNS ++
        INTERCHANGE_FORMAT_MANDATORY_COLUMNS ++ additionalAllowedCoords
        ∨ startsWithL coord SEC_CATS_LEAD then
      add_dimensions_from_defaults (addColumn df coord v) rest
        additionalAllowedCoords
    else .error (.unknownDefaultCoord coord)

/-- The dataset-wide naming attrs built during ingestion: free-text metadata
plus `cat` / `scen` / `area` / `entity_terminology` / `sec_cats`. -/
structure XrAttrs where
  meta : List (String × String)
  cat : Option String
  scen : Option String
  area : Option String
  entity_terminology : Option String
  sec_cats : List String
deriving DecidableEq

/-- The empty attrs record. -/
def XrAttrs.empty : XrAttrs := ⟨[], none, none, none, none, []⟩

/-- Embedding of `rename_columns` (`_data_reading.py`): for every dimension of
`coords_cols` and `coords_defaults`, qualify with its terminology if any,
strip the `sec_cats__` marker (recording the secondary category), record the
`cat`/`scen`/`area` attrs, build the source-column → new-name renaming (also
renaming auxiliary-coordinate source columns to their coordinate names), and
apply it to the frame's columns. Returns the renamed frame and the naming
attrs. -/
def rename_columns (df : DFrame) (coordsCols : List (String × String))
    (addCoordsCols : List (String × String × String))
    (coordsDefaults : List (String × Value))
    (coordsTerminologies : List (String × String)) : DFrame × XrAttrs :=
  let srcOf := fun coord => (coordsCols.lookup coord).getD coord
  let coords := coordsCols.map Prod.fst ++ coordsDefaults.map Prod.fst
  let step := fun (st : List (String × String) × XrAttrs × List String)
      (coord : String) =>
    let ren := st.1
    let attrs := st.2.1
    let secCats := st.2.2
    let name0 := match coordsTerminologies.lookup coord with
      | some t => coord ++ " (" ++ t ++ ")"
      | none => coord
    let attrs := if coord = "entity" ∧ (coordsTerminologies.lookup coord).isSome
      then { attrs with entity_terminology := coordsTerminologies.lookup coord }
      else attrs
    if startsWithL coord SEC_CATS_LEAD then
      let name := String.mk (name0.toList.drop SEC_CATS_LEAD.length)
      (dictInsert ren (srcOf coord) name, attrs, secCats ++ [name])
    else
      let attrs :=
        if coord = "category" then { attrs with cat := some name0 }
        else if coord = "scenario" then { attrs with scen := some name0 }
        else if coord = "area" then { attrs with area := some name0 }
        else attrs
      (dictInsert ren (srcOf coord) name0, attrs, secCats)
  let st := coords.foldl step ([], XrAttrs.empty, [])
  let ren := addCoordsCols.foldl (fun ren a => dictInsert ren a.2.1 a.1) st.1
  let renameCol := fun c => (ren.lookup c).getD c
  let attrs := { st.2.1 with sec_cats := st.2.2 }
  (⟨df.cols.map renameCol,
    df.rows.map fun ir => (ir.1, ir.2.map fun kv => (renameCol kv.1, kv.2))⟩,
   attrs)

/-- Embedding of `additional_coordinate_metadata`: reject auxiliary
coordinates that carry a terminology definition or refer to a dimension not
in `coords_cols`; otherwise record coordinate name → owning dimension
(terminology-qualified if the dimension has one). -/
def additional_coordinate_metadata
    (addCoordsCols : List (String × String × String))
    (coordsCols : List (String × String))
    (coordsTerminologies : List (String × String)) :
    Except ConvError (List (String × String)) :=
  match addCoordsCols with
  | [] => .ok []
  | (coord, _, dim) :: rest =>
    if (coordsTerminologies.lookup coord).isSome then
      .error (.addCoordHasTerminology coord)
    else if (coordsCols.lookup dim).isNone then
      .error (.addCoordUnknownCoord coord)
    else do
      let restMeta ← additional_coordinate_metadata rest coordsCols
        coordsTerminologies
      let entry := match coordsTerminologies.lookup dim with
        | some t => dim ++ " (" ++ t ++ ")"
        | none => dim
      .ok ((coord, entry) :: restMeta)

/-- Embedding of `map_metadata` (`_data_reading.py`): if `"entity"` is a key
of `meta_mapping`, pop it (mutating the caller's dict) and run the unordered
mapper on the entity mapping first, then on the remainder. The unordered
mapper `map_metadata_unordered` is a parameter: its internals (pandas
`replace`, `np.unique`, the `_conversion` PRIMAP1 presets) are external to
the properties verified here. Returns the new frame and the final state of
the caller's `meta_mapping` dict. -/
def map_metadata {R : Type}
    (mapUnordered : DFrame → List (String × R) → XrAttrs → DFrame)
    (df : DFrame) (mm : List (String × R)) (attrs : XrAttrs) :
    DFrame × List (String × R) :=
  match mm.lookup "entity" with
  | some rule =>
    let mm' := mm.filter fun kv => kv.1 ≠ "entity"
    (mapUnordered (mapUnordered df [("entity", rule)] attrs) mm' attrs, mm')
  | none => (mapUnordered df mm attrs, mm)

/-- Modelled from the spec: `translations_from_attrs` from
`primap2/_alias_selection.py` is called by the pipeline but its definition is
not among the sources under verification. Per spec §4.1 (dataset-level
`dim_alias_translations`) it maps `category`/`scenario`/`area` to the
corresponding recorded attr, each secondary category's short name to its full
name, and (with `include_entity`) `entity` to
`"entity (<entity_terminology>)"` when an entity terminology is recorded
(cf. the `harmonize_units` docstring). -/
def translations_from_attrs (attrs : XrAttrs) (includeEntity : Bool) :
    List (String × String) :=
  (match attrs.cat with | some v => [("category", v)] | none => []) ++
  (match attrs.scen with | some v => [("scenario", v)] | none => []) ++
  (match attrs.area with | some v => [("area", v)] | none => []) ++
  (attrs.sec_cats.map fun full => (keyOf full, full)) ++
  (if includeEntity then
    match attrs.entity_terminology with
    | some t => [("entity", "entity (" ++ t ++ ")")]
    | none => []
  else [])

/-- Embedding of `fill_from_other_col`: for every (target, source,
source-value → target-value) triple in declaration order, set the target
column to the target value on rows whose source column equals the source
value. Column names are resolved through the attrs-derived aliases. -/
def fill_from_other_col (df : DFrame)
    (coordsValueFilling : List (String × List (String × List (Value × Value))))
    (attrs : XrAttrs) : DFrame :=
  let dimAliases := translations_from_attrs attrs true
  let colName := fun c => (dimAliases.lookup c).getD c
  coordsValueFilling.foldl
    (fun df ti =>
      ti.2.foldl
        (fun df si =>
          si.2.foldl
            (fun df sv =>
              ⟨df.cols, df.rows.map fun ir =>
                if getCell ir.2 (colName si.1) = sv.1 then
                  (ir.1, setCell (colName ti.1) sv.2 ir.2)
                else ir⟩)
            df)
        df)
    df

/-- Worker for `firstUnique`: drop the values already seen. -/
def firstUniqueAux (seen : List Value) : List Value → List Value
  | [] => []
  | x :: xs =>
    if x ∈ seen then firstUniqueAux seen xs
    else x :: firstUniqueAux (x :: seen) xs

/-- `pd.unique`: the distinct values of a list in order of first occurrence. -/
def firstUnique (l : List Value) : List Value := firstUniqueAux [] l

/-- The per-entity body of the `harmonize_units` loop: compute the distinct
units of the entity's rows (first-occurrence order); if there are at least
two, convert, for each further unit, the rows of this entity carrying that
unit: multiply their data columns by the conversion factor to the first unit
and rewrite their unit column. `convFactor u u0` is the external pint
computation `ureg[u].to(u0).magnitude`. -/
def harmonizeEntity (convFactor : Value → Value → ℚ)
    (entityCol unitCol : String) (dataCols : List String) (e : Value)
    (rows : List (ℕ × Row)) : List (ℕ × Row) :=
  match firstUnique
      ((rows.filter fun ir => getCell ir.2 entityCol == e).map
        fun ir => getCell ir.2 unitCol) with
  | [] => rows
  | u0 :: rest =>
    rest.foldl
      (fun cur u =>
        cur.map fun ir =>
          if getCell ir.2 entityCol = e ∧ getCell ir.2 unitCol = u then
            (ir.1, setCell unitCol u0 (scaleRow dataCols (convFactor u u0) ir.2))
          else ir)
      rows

/-- The entity column resolved through the attrs-derived aliases (honouring
`entity_terminology`). -/
def entityColOf (attrs : XrAttrs) : String :=
  ((translations_from_attrs attrs true).lookup "entity").getD "entity"

/-- The unit column resolved through the attrs-derived aliases (which never
bind `"unit"` in practice, so this is `"unit"`). -/
def unitColOf (attrs : XrAttrs) : String :=
  ((translations_from_attrs attrs true).lookup "unit").getD "unit"

/-- The data-bearing columns: all columns outside the dimensions. -/
def dataColsOf (cols dimensions : List String) : List String :=
  cols.filter fun c => !(dimensions.contains c)

/-- Embedding of `harmonize_units` (`_data_reading.py`): for each distinct
entity of the entity column (first-occurrence order), run the per-entity unit
conversion on the current rows. -/
def harmonize_units (convFactor : Value → Value → ℚ) (df : DFrame)
    (dimensions : List String) (attrs : XrAttrs) : DFrame :=
  ⟨df.cols,
   (firstUnique (df.rows.map fun ir => getCell ir.2 (entityColOf attrs))).foldl
     (fun rows e => harmonizeEntity convFactor (entityColOf attrs)
       (unitColOf attrs) (dataColsOf df.cols dimensions) e rows)
     df.rows⟩

/-- The attrs record attached to the interchange-format table
(`interchange_format_attrs_dict`): the dataset attrs, the time format, the
`dimensions` entry for `"*"`, and the additional-coordinates mapping (empty
list = absent). -/
structure IFMeta where
  attrs : XrAttrs
  time_format : String
  dimensions : List String
  additional_coordinates : List (String × String)
deriving DecidableEq

/-- Embedding of `interchange_format_attrs_dict`. -/
def interchange_format_attrs_dict (xrAttrs : XrAttrs) (timeFormat : String)
    (dimensions : List String) (addCoords : List (String × String)) : IFMeta :=
  ⟨xrAttrs, timeFormat, dimensions, addCoords⟩

/-- Result of `convert_wide_dataframe_if`: the interchange-format frame, its
attrs record, the final state of the caller's `data_wide` argument (the
source copies it before any mutation), and the final state of the caller's
`coords_value_mapping` dict (which `map_metadata` mutates). -/
structure WideResult (R : Type) where
  data : DFrame
  meta : IFMeta
  dataWideFinal : DFrame
  mappingFinal : Option (List (String × R))

/-- Embedding of `convert_wide_dataframe_if` (`_data_reading.py`).
`mapUnordered` stands for `map_metadata_unordered` (external to the verified
properties), `convFactor` for the pint conversion-factor lookup. The stages
run in source order: specification checks, time-column detection, copy,
filter, defaults, rename, auxiliary-coordinate metadata, optional metadata
mapping, optional value filling, unit harmonization, sorting, attrs. -/
def convert_wide_dataframe_if {R : Type}
    (mapUnordered : DFrame → List (String × R) → XrAttrs → DFrame)
    (convFactor : Value → Value → ℚ)
    (dataWide : DFrame)
    (coordsCols : List (String × String))
    (addCoordsCols : List (String × String × String))
    (coordsDefaults : List (String × Value))
    (coordsTerminologies : List (String × String))
    (coordsValueMapping : Option (List (String × R)))
    (coordsValueFilling :
      Option (List (String × List (String × List (Value × Value)))))
    (filterKeep filterRemove : List FilterSpec)
    (metaData : List (String × String))
    (timeFormat : String)
    (timeCols : Option (List String)) : Except ConvError (WideResult R) := do
  check_mandatory_dimensions coordsCols coordsDefaults
  check_overlapping_specifications coordsCols coordsDefaults
  if addCoordsCols.isEmpty then pure () else
    check_overlapping_specifications_add_cols coordsCols addCoordsCols
  let timeColumns := match timeCols with
    | some tc => tc
    | none => dataWide.cols.filter fun c => matches_time_format c timeFormat
  let d0 := filter_data dataWide filterKeep filterRemove
  let d1 ← add_dimensions_from_defaults d0 coordsDefaults []
  let renamed := rename_columns d1 coordsCols addCoordsCols coordsDefaults
    coordsTerminologies
  let d2 := renamed.1
  let attrs := { renamed.2 with meta := metaData }
  let additionalCoordinates ← additional_coordinate_metadata addCoordsCols
    coordsCols coordsTerminologies
  let mapped := match coordsValueMapping with
    | some mm =>
      let p := map_metadata mapUnordered d2 mm attrs
      (p.1, some p.2)
    | none => (d2, none)
  let d3 := mapped.1
  let d4 := match coordsValueFilling with
    | some filling => fill_from_other_col d3 filling attrs
    | none => d3
  let coords := d4.cols.filter fun c => !(timeColumns.contains c)
  let d5 := harmonize_units convFactor d4 coords attrs
  let sorted := sort_columns_and_rows d5 coords
  let dims := addCoordsCols.foldl (fun ds a => ds.erase a.1) sorted.2
  let meta := interchange_format_attrs_dict attrs timeFormat dims
    additionalCoordinates
  .ok ⟨sorted.1, meta, dataWide, mapped.2⟩

/-- `df[c] = f(df[c])`: transform an existing column cell-wise in place
(used for the datetime parse / strftime round trip on the time column). -/
def mapColumn (c : String) (f : Value → Value) (df : DFrame) : DFrame :=
  ⟨df.cols,
   df.rows.map fun ir =>
     (ir.1, ir.2.map fun kv => (kv.1, if kv.1 = c then f kv.2 else kv.2))⟩

/-- The final state of the caller's `data_long` argument through
`convert_long_dataframe_if` (`_data_reading.py`): unlike the wide path there
is no copy, so the in-place stages (filter, defaults, rename, metadata
mapping, value filling, unit harmonization, the `pd.to_datetime` parse of the
time column at line 222 and the `strftime` re-formatting applied to the same
object inside `long_to_wide`) all hit the caller's frame. The pivoted return
value of `long_to_wide` and the subsequent sorting act on fresh frames and do
not touch the caller's object; they are not modelled here. `toDatetime` and
`strftimeF` are the external datetime collaborators for the configured time
format. -/
def convert_long_dataframe_if_state {R : Type}
    (mapUnordered : DFrame → List (String × R) → XrAttrs → DFrame)
    (convFactor : Value → Value → ℚ)
    (toDatetime strftimeF : Value → Value)
    (dataLong : DFrame)
    (coordsCols : List (String × String))
    (addCoordsCols : List (String × String × String))
    (coordsDefaults : List (String × Value))
    (coordsTerminologies : List (String × String))
    (coordsValueMapping : Option (List (String × R)))
    (coordsValueFilling :
      Option (List (String × List (String × List (Value × Value)))))
    (filterKeep filterRemove : List FilterSpec)
    (metaData : List (String × String)) : Except ConvError DFrame := do
  check_mandatory_dimensions coordsCols coordsDefaults
  check_overlapping_specifications coordsCols coordsDefaults
  if addCoordsCols.isEmpty then pure () else
    check_overlapping_specifications_add_cols coordsCols addCoordsCols
  let d0 := filter_data dataLong filterKeep filterRemove
  let d1 ← add_dimensions_from_defaults d0 coordsDefaults ["time"]
  let renamed := rename_columns d1 coordsCols addCoordsCols coordsDefaults
    coordsTerminologies
  let d2 := renamed.1
  let attrs := { renamed.2 with meta := metaData }
  let _ ← additional_coordinate_metadata addCoordsCols coordsCols
    coordsTerminologies
  let d3 := match coordsValueMapping with
    | some mm => (map_metadata mapUnordered d2 mm attrs).1
    | none => d2
  let d4 := match coordsValueFilling with
    | some filling => fill_from_other_col d3 filling attrs
    | none => d3
  let coords := d4.cols.filter fun c => c ≠ "data"
  let d5 := harmonize_units convFactor d4 coords attrs
  let d6 := mapColumn "time" toDatetime d5
  let d7 := mapColumn "time" strftimeF d6
  .ok d7

/-- Embedding of `read_wide_csv_file_if` (`_data_reading.py`): the
specification checks run first, then the CSV (already parsed into a raw table
by the external reader) is processed by `read_wide_csv`, and the result is
converted by `convert_wide_dataframe_if` with the detected time columns. -/
def read_wide_csv_file_if {R : Type}
    (mapUnordered : DFrame → List (String × R) → XrAttrs → DFrame)
    (convFactor : Value → Value → ℚ)
    (csv : DFrame)
    (coordsCols : List (String × String))
    (addCoordsCols : List (String × String × String))
    (coordsDefaults : List (String × Value))
    (coordsTerminologies : List (String × String))
    (coordsValueMapping : Option (List (String × R)))
    (coordsValueFilling :
      Option (List (String × List (String × List (Value × Value)))))
    (filterKeep filterRemove : List FilterSpec)
    (metaData : List (String × String))
    (timeFormat : String) : Except ConvError (WideResult R) := do
  check_mandatory_dimensions coordsCols coordsDefaults
  check_overlapping_specifications coordsCols coordsDefaults
  if addCoordsCols.isEmpty then pure () else
    check_overlapping_specifications_add_cols coordsCols addCoordsCols
  let r ← read_wide_csv csv coordsCols addCoordsCols timeFormat
  convert_wide_dataframe_if mapUnordered convFactor r.1 coordsCols
    addCoordsCols coordsDefaults coordsTerminologies coordsValueMapping
    coordsValueFilling filterKeep filterRemove metaData timeFormat (some r.2)

/-- The distinct units among the rows of a given entity, in order of first
occurrence (the `units_this_entity` of `harmonize_units`, as computed on a
given row list). -/
def entityUnitsOf (entityCol unitCol : String) (rows : List (ℕ × Row))
    (e : Value) : List Value :=
  firstUnique
    ((rows.filter fun ir => getCell ir.2 entityCol == e).map
      fun ir => getCell ir.2 unitCol)

/-- The conversion applied by `harmonize_units` to a single row: scale the
data columns by the factor from the row's unit to the target unit and rewrite
the unit column. -/
def convRow (convFactor : Value → Value → ℚ) (unitCol : String)
    (dataCols : List String) (u0 : Value) (ir : ℕ × Row) : ℕ × Row :=
  (ir.1,
   setCell unitCol u0
     (scaleRow dataCols (convFactor (getCell ir.2 unitCol) u0) ir.2))

/-- The effect of the whole `harmonize_units` pass on one row, phrased
against the input row list: rows of an entity with a single unit (or rows
already carrying the entity's first unit) are untouched; all other rows are
converted to the entity's first-occurring unit. -/
def harmonizedRow (convFactor : Value → Value → ℚ)
    (entityCol unitCol : String) (dataCols : List String)
    (rows : List (ℕ × Row)) (ir : ℕ × Row) : ℕ × Row :=
  match entityUnitsOf entityCol unitCol rows (getCell ir.2 entityCol) with
  | [] => ir
  | [_] => ir
  | u0 :: _ :: _ =>
    if getCell ir.2 unitCol = u0 then ir
    else convRow convFactor unitCol dataCols u0 ir

/-- The survival predicate described by the spec for `filter_data`: a row
survives iff it matches at least one keep filter (or no keep filters were
given) and matches no removal filter. -/
def survives (filterKeep filterRemove : List FilterSpec) (r : Row) : Bool :=
  (filterKeep.isEmpty || filterKeep.any fun spec => matchesSpec spec r) &&
    !(filterRemove.any fun spec => matchesSpec spec r)

/-- A trivial concrete instance of the external `map_metadata_unordered`
collaborator, for exercising the pipeline theorems on concrete inputs. -/
def mapUW : DFrame → List (String × Unit) → XrAttrs → DFrame := fun df _ _ => df

/-- A trivial concrete conversion-factor collaborator for concrete inputs. -/
def cfW : Value → Value → ℚ := fun _ _ => 1

/-- The C1 `coords_cols` specification: each dimension from its same-named
column. -/
def ccC1 : List (String × String) :=
  [("area", "area"), ("category", "category"), ("entity", "entity"),
   ("unit", "unit")]

/-- The C1 `coords_terminologies` specification. -/
def termsC1 : List (String × String) :=
  [("area", "ISO3"), ("category", "IPCC2006")]

/-- The C3 keep-filter table: one row each for USA, DEU, FRA. -/
def dfKeepC3 : DFrame :=
  ⟨["area", "data"],
   [(0, [("area", .str "USA"), ("data", .num 1)]),
    (1, [("area", .str "DEU"), ("data", .num 2)]),
    (2, [("area", .str "FRA"), ("data", .num 3)])]⟩

/-- The C3 keep filter: `area ∈ [USA, DEU]`. -/
def keepC3 : FilterSpec :=
  [("area", FilterVal.several [.str "USA", .str "DEU"])]

/-- The C3 remove-filter table: a HISTORY row and a PROJ row. -/
def dfRemC3 : DFrame :=
  ⟨["scenario", "data"],
   [(0, [("scenario", .str "HISTORY"), ("data", .num 1)]),
    (1, [("scenario", .str "PROJ"), ("data", .num 2)])]⟩

/-- The C3 removal filter: `scenario = HISTORY`. -/
def remC3 : FilterSpec :=
  [("scenario", FilterVal.single (.str "HISTORY"))]

/-- A concrete unsorted table for the C6 witness. -/
def dfC6 : DFrame :=
  ⟨["unit", "2019", "area (ISO3)", "entity"],
   [(5, [("unit", .str "Gg"), ("2019", .num 3), ("area (ISO3)", .str "DEU"),
         ("entity", .str "CH4")]),
    (2, [("unit", .str "Mg"), ("2019", .num 1), ("area (ISO3)", .str "AUT"),
         ("entity", .str "CO2")])]⟩

/-- The dimension list for the C6 witness. -/
def dimsC6 : List String := ["area", "entity", "unit"]

/-- The concrete pint collaborator for the C2 example: the factor from Mg to
Gg is 1/1000 (only this pair is exercised). -/
def cfMgC2 : Value → Value → ℚ := fun u u0 =>
  if u = Value.str "Mg" ∧ u0 = Value.str "Gg" then mkRat 1 1000 else 1

/-- The C2 table: two CO2 rows, one in Gg with value 1 and one in Mg with
value 1000. -/
def dfC2 : DFrame :=
  ⟨["entity", "unit", "2019"],
   [(0, [("entity", .str "CO2"), ("unit", .str "Gg"), ("2019", .num 1)]),
    (1, [("entity", .str "CO2"), ("unit", .str "Mg"), ("2019", .num 1000)])]⟩

/-- The C9/C10 concrete wide table (no data rows needed). -/
def dfW9 : DFrame := ⟨["area", "category", "entity", "unit", "2019"], []⟩

/-- The C9/C10 concrete `coords_cols` specification. -/
def ccW9 : List (String × String) :=
  [("area", "area"), ("category", "category"), ("entity", "entity"),
   ("unit", "unit")]

/-- The C9 concrete `coords_value_mapping` dict, with an `"entity"` rule. -/
def mmW9 : List (String × Unit) := [("entity", ()), ("category", ())]

/-- The concrete result of the C9 wide conversion. -/
def outW9 : WideResult Unit :=
  (convert_wide_dataframe_if mapUW cfW dfW9 ccW9 [] [] [] (some mmW9) none
      [] [] [] "%Y" none).toOption.getD
    ⟨⟨[], []⟩, ⟨XrAttrs.empty, "", [], []⟩, ⟨[], []⟩, none⟩

/-- The modelled `pd.to_datetime` collaborator for the C10 example. -/
def toDTC10 : Value → Value := fun _ => Value.num 737

/-- The modelled `strftime` collaborator for the C10 example. -/
def strFC10 : Value → Value := fun _ => Value.str "2019-01-01"

/-- The C10 long-format input table. -/
def dataLongC10 : DFrame :=
  ⟨["area", "entity", "unit", "time", "data"],
   [(0, [("area", .str "DEU"), ("entity", .str "CO2"), ("unit", .str "Gg"),
         ("time", .str "2019"), ("data", .num 1)]),
    (1, [("area", .str "FRA"), ("entity", .str "CO2"), ("unit", .str "Gg"),
         ("time", .str "2019"), ("data", .num 2)])]⟩

/-- The C10 long-format `coords_cols` specification. -/
def ccC10 : List (String × String) :=
  [("area", "area"), ("entity", "entity"), ("unit", "unit"),
   ("time", "time")]

/-- The C10 `coords_defaults` specification: a constant category. -/
def cdC10 : List (String × Value) := [("category", .str "1")]

/-- The C10 terminologies. -/
def termsC10 : List (String × String) :=
  [("area", "ISO3"), ("category", "IPCC2006")]

/-- The C10 removal filter: drop the DEU row. -/
def remC10 : FilterSpec := [("area", FilterVal.single (.str "DEU"))]

/-- The final state of the caller's long-format frame in the C10 example:
rows filtered and re-indexed from 0, the default `category` column appended,
columns renamed with their terminologies, and the time column rewritten by
the datetime parse / strftime round trip. -/
def longFinalC10 : DFrame :=
  ⟨["area (ISO3)", "entity", "unit", "time", "data", "category (IPCC2006)"],
   [(0, [("area (ISO3)", .str "FRA"), ("entity", .str "CO2"),
         ("unit", .str "Gg"), ("time", .str "2019-01-01"),
         ("data", .num 2), ("category (IPCC2006)", .str "1")])]⟩

/-- The concrete result of the C10 wide conversion. -/
def outW10 : WideResult Unit :=
  (convert_wide_dataframe_if mapUW cfW dfW9 ccW9 [] [] [] none none
      [] [] [] "%Y" none).toOption.getD
    ⟨⟨[], []⟩, ⟨XrAttrs.empty, "", [], []⟩, ⟨[], []⟩, none⟩

theorem qmul_eq_mul (a b : ℚ) : qmul a b = a * b := by
  unfold qmul
  rw [Rat.mkRat_eq_div]
  push_cast
  rw [← div_mul_div_comm, Rat.num_div_den, Rat.num_div_den]

theorem lexCharLe_total (xs ys : List Char) :
    (lexCharLe xs ys || lexCharLe ys xs) = true := by
  induction xs generalizing ys with
  | nil => simp [lexCharLe]
  | cons a as ih =>
    cases ys with
    | nil => simp [lexCharLe]
    | cons b bs =>
      by_cases hab : a = b
      · subst hab
        simpa [lexCharLe] using ih bs
      · simp [lexCharLe, hab, Ne.symm hab]

theorem lexCharLe_trans (xs ys zs : List Char) (hxy : lexCharLe xs ys = true)
    (hyz : lexCharLe ys zs = true) : lexCharLe xs zs = true := by
  induction xs generalizing ys zs with
  | nil => simp [lexCharLe]
  | cons a as ih =>
    cases ys with
    | nil => simp [lexCharLe] at hxy
    | cons b bs =>
      cases zs with
      | nil => simp [lexCharLe] at hyz
      | cons c cs =>
        by_cases hab : a = b <;> by_cases hbc : b = c
        · subst hab; subst hbc
          simp only [lexCharLe, if_pos rfl] at hxy hyz ⊢
          exact ih bs cs hxy hyz
        · subst hab
          simp only [lexCharLe, if_pos rfl, if_neg hbc] at hyz ⊢
          exact hyz
        · subst hbc
          simp only [lexCharLe, if_pos rfl, if_neg hab] at hxy ⊢
          exact hxy
        · simp only [lexCharLe, if_neg hab, if_neg hbc,
            decide_eq_true_eq] at hxy hyz
          by_cases hac : a = c
          · subst hac
            exact absurd hyz (lt_asymm hxy)
          · simp only [lexCharLe, if_neg hac, decide_eq_true_eq]
            exact lt_trans hxy hyz

theorem lexCharLe_antisymm (xs ys : List Char) (hxy : lexCharLe xs ys = true)
    (hyx : lexCharLe ys xs = true) : xs = ys := by
  induction xs generalizing ys with
  | nil =>
    cases ys with
    | nil => rfl
    | cons b bs => simp [lexCharLe] at hyx
  | cons a as ih =>
    cases ys with
    | nil => simp [lexCharLe] at hxy
    | cons b bs =>
      by_cases hab : a = b
      · subst hab
        simp only [lexCharLe, if_pos rfl] at hxy hyx
        rw [ih bs hxy hyx]
      · simp only [lexCharLe, if_neg hab, if_neg (Ne.symm hab),
          decide_eq_true_eq] at hxy hyx
        exact absurd hyx (lt_asymm hxy)

theorem Value.leTotal (a b : Value) : (Value.le a b || Value.le b a) = true := by
  cases a <;> cases b <;>
    first
      | exact lexCharLe_total _ _
      | simp [Value.le, Value.rank, le_total]

theorem Value.leTrans (a b c : Value) (hab : Value.le a b = true)
    (hbc : Value.le b c = true) : Value.le a c = true := by
  cases a <;> cases b <;> cases c <;>
    first
      | exact lexCharLe_trans _ _ _ hab hbc
      | simp [Value.le, Value.rank] at hab hbc ⊢
  all_goals exact le_trans hab hbc

theorem Value.leAntisymm (a b : Value) (hab : Value.le a b = true)
    (hba : Value.le b a = true) : a = b := by
  cases a <;> cases b <;>
    simp only [Value.le, Value.rank, decide_eq_true_eq] at hab hba <;>
    first
      | rfl
      | omega
      | exact congrArg Value.str
          (String.ext (lexCharLe_antisymm _ _ hab hba))
      | exact congrArg Value.num (le_antisymm hab hba)

theorem getCell_congr_of_ne_head (k : String) (w : Value) (r : Row)
    (c : String) (h : k ≠ c) : getCell ((k, w) :: r) c = getCell r c := by
  simp [getCell, h]

theorem getCell_setCell (c : String) (v : Value) (r : Row) (c' : String) :
    getCell (setCell c v r) c' =
      if c = c' ∧ c' ∈ rowKeys r then v
      else getCell r c' := by
  induction r with
  | nil => simp [setCell, getCell, rowKeys]
  | cons kv r ih =>
    obtain ⟨k, w⟩ := kv
    by_cases hk' : k = c'
    · subst hk'
      by_cases hc : c = k
      · subst hc
        simp [setCell, getCell, rowKeys]
      · have hkc : ¬k = c := fun h => hc h.symm
        simp [setCell, getCell, rowKeys, hc, hkc]
    · have hcond : (c = c' ∧ c' ∈ rowKeys ((k, w) :: r)) =
          (c = c' ∧ c' ∈ rowKeys r) := by
        simp [rowKeys, List.mem_cons, Ne.symm hk']
      have hl : getCell (setCell c v ((k, w) :: r)) c' =
          getCell (setCell c v r) c' := by
        simp [setCell, getCell, hk']
      rw [hl, ih, getCell_congr_of_ne_head k w r c' hk']
      simp only [hcond]

theorem getCell_setCell_of_ne (c : String) (v : Value) (r : Row) (c' : String)
    (h : c ≠ c') : getCell (setCell c v r) c' = getCell r c' := by
  rw [getCell_setCell]
  simp [h]

theorem getCell_setCell_self (c : String) (v : Value) (r : Row)
    (h : c ∈ rowKeys r) : getCell (setCell c v r) c = v := by
  rw [getCell_setCell]
  simp [h]

theorem getCell_scaleRow (cols : List String) (f : ℚ) (r : Row) (c : String) :
    getCell (scaleRow cols f r) c =
      if c ∈ cols ∧ c ∈ rowKeys r then Value.scale f (getCell r c)
      else getCell r c := by
  induction r with
  | nil => simp [scaleRow, getCell, rowKeys]
  | cons kv r ih =>
    obtain ⟨k, w⟩ := kv
    by_cases hk : k = c
    · subst hk
      by_cases hc : k ∈ cols
      · simp [scaleRow, getCell, rowKeys, hc]
      · simp [scaleRow, getCell, rowKeys, hc]
    · have hcond : (c ∈ cols ∧ c ∈ rowKeys ((k, w) :: r)) =
          (c ∈ cols ∧ c ∈ rowKeys r) := by
        simp [rowKeys, List.mem_cons, Ne.symm hk]
      have hl : getCell (scaleRow cols f ((k, w) :: r)) c =
          getCell (scaleRow cols f r) c := by
        simp [scaleRow, getCell, hk]
      rw [hl, ih, getCell_congr_of_ne_head k w r c hk]
      simp only [hcond]

theorem rowKeys_setCell (c : String) (v : Value) (r : Row) :
    rowKeys (setCell c v r) = rowKeys r := by
  induction r with
  | nil => rfl
  | cons kv r ih =>
    obtain ⟨k, w⟩ := kv
    simpa [setCell, rowKeys] using ih

theorem rowKeys_scaleRow (cols : List String) (f : ℚ) (r : Row) :
    rowKeys (scaleRow cols f r) = rowKeys r := by
  induction r with
  | nil => rfl
  | cons kv r ih =>
    obtain ⟨k, w⟩ := kv
    simpa [scaleRow, rowKeys] using ih

theorem selectCols_self (cols : List String) (r : Row)
    (halign : rowKeys r = cols) (hnd : cols.Nodup) : selectCols cols r = r := by
  induction r generalizing cols with
  | nil => subst halign; rfl
  | cons kv r ih =>
    obtain ⟨k, v⟩ := kv
    subst halign
    simp only [rowKeys, List.map_cons, List.nodup_cons] at hnd ⊢
    obtain ⟨hk, hnd'⟩ := hnd
    simp only [selectCols, List.map_cons]
    congr 1
    · simp [getCell]
    · have hcg : ∀ c ∈ List.map Prod.fst r,
          (fun c => (c, getCell ((k, v) :: r) c)) c =
            (fun c => (c, getCell r c)) c := by
        intro c hc
        have : k ≠ c := fun he => hk (he ▸ hc)
        simp [getCell, this]
      calc (List.map Prod.fst r).map (fun c => (c, getCell ((k, v) :: r) c))
          = (List.map Prod.fst r).map (fun c => (c, getCell r c)) :=
            List.map_congr_left hcg
        _ = r := ih (rowKeys r) rfl hnd'

theorem lexLe_total (xs ys : List Value) : (lexLe xs ys || lexLe ys xs) = true := by
  induction xs generalizing ys with
  | nil => simp [lexLe]
  | cons a as ih =>
    cases ys with
    | nil => simp [lexLe]
    | cons b bs =>
      by_cases hab : a = b
      · subst hab
        simpa [lexLe] using ih bs
      · simp [lexLe, hab, Ne.symm hab]
        rcases Bool.or_eq_true_iff.mp (Value.leTotal a b) with h | h
        · exact Or.inl h
        · exact Or.inr h

theorem lexLe_trans (xs ys zs : List Value) (hxy : lexLe xs ys = true)
    (hyz : lexLe ys zs = true) : lexLe xs zs = true := by
  induction xs generalizing ys zs with
  | nil => simp [lexLe]
  | cons a as ih =>
    cases ys with
    | nil => simp [lexLe] at hxy
    | cons b bs =>
      cases zs with
      | nil => simp [lexLe] at hyz
      | cons c cs =>
        by_cases hab : a = b <;> by_cases hbc : b = c
        · subst hab; subst hbc
          simp only [lexLe, if_pos rfl] at hxy hyz ⊢
          exact ih bs cs hxy hyz
        · subst hab
          simp only [lexLe, if_pos rfl, if_neg hbc] at hyz ⊢
          exact hyz
        · subst hbc
          simp only [lexLe, if_pos rfl, if_neg hab] at hxy ⊢
          exact hxy
        · simp only [lexLe, if_neg hab, if_neg hbc] at hxy hyz
          by_cases hac : a = c
          · subst hac
            exact absurd (Value.leAntisymm a b hxy hyz) hab
          · simp only [lexLe, if_neg hac]
            exact Value.leTrans a b c hxy hyz

theorem rowLe_total (cols : List String) (a b : ℕ × Row) :
    (rowLe cols a b || rowLe cols b a) = true :=
  lexLe_total _ _

theorem rowLe_trans (cols : List String) (a b c : ℕ × Row)
    (h1 : rowLe cols a b = true) (h2 : rowLe cols b c = true) :
    rowLe cols a c = true :=
  lexLe_trans _ _ _ h1 h2

theorem insertSorted_perm {α : Type} (le : α → α → Bool) (x : α)
    (l : List α) : (insertSorted le x l).Perm (x :: l) := by
  induction l with
  | nil => exact List.Perm.refl _
  | cons y ys ih =>
    by_cases h : le x y
    · rw [insertSorted, if_pos h]
    · rw [insertSorted, if_neg h]
      exact (ih.cons y).trans (List.Perm.swap x y ys)

theorem sortBy_perm {α : Type} (le : α → α → Bool) (l : List α) :
    (sortBy le l).Perm l := by
  induction l with
  | nil => exact List.Perm.refl _
  | cons x xs ih =>
    exact (insertSorted_perm le x (sortBy le xs)).trans (ih.cons x)

theorem insertSorted_pairwise {α : Type} (le : α → α → Bool)
    (htrans : ∀ a b c, le a b = true → le b c = true → le a c = true)
    (htotal : ∀ a b, (le a b || le b a) = true) (x : α) (l : List α)
    (hl : l.Pairwise fun a b => le a b = true) :
    (insertSorted le x l).Pairwise fun a b => le a b = true := by
  induction l with
  | nil => simp [insertSorted]
  | cons y ys ih =>
    rw [List.pairwise_cons] at hl
    obtain ⟨hy, hys⟩ := hl
    by_cases h : le x y
    · rw [insertSorted, if_pos h]
      refine List.Pairwise.cons ?_ (List.Pairwise.cons hy hys)
      intro z hz
      rcases List.mem_cons.mp hz with hz | hz
      · rw [hz]; exact h
      · exact htrans x y z h (hy z hz)
    · rw [insertSorted, if_neg h]
      have hyx : le y x = true := by
        rcases Bool.or_eq_true_iff.mp (htotal x y) with h' | h'
        · exact absurd h' h
        · exact h'
      refine List.Pairwise.cons ?_ (ih hys)
      intro z hz
      have : z ∈ x :: ys := (insertSorted_perm le x ys).mem_iff.mp hz
      rcases List.mem_cons.mp this with hz' | hz'
      · rw [hz']; exact hyx
      · exact hy z hz'

theorem sortBy_pairwise {α : Type} (le : α → α → Bool)
    (htrans : ∀ a b c, le a b = true → le b c = true → le a c = true)
    (htotal : ∀ a b, (le a b || le b a) = true) (l : List α) :
    (sortBy le l).Pairwise fun a b => le a b = true := by
  induction l with
  | nil => simp [sortBy]
  | cons x xs ih => exact insertSorted_pairwise le htrans htotal x _ ih

theorem sortBy_of_sorted {α : Type} (le : α → α → Bool) (l : List α)
    (h : l.Pairwise fun a b => le a b = true) : sortBy le l = l := by
  induction l with
  | nil => rfl
  | cons x xs ih =>
    rw [List.pairwise_cons] at h
    obtain ⟨hx, hxs⟩ := h
    rw [sortBy, ih hxs]
    cases xs with
    | nil => rfl
    | cons y ys =>
      rw [insertSorted, if_pos (hx y (List.mem_cons_self y ys))]

theorem sortStrings_idem (l : List String) :
    sortStrings (sortStrings l) = sortStrings l := by
  apply sortBy_of_sorted
  apply sortBy_pairwise
  · intro a b c hab hbc
    exact lexCharLe_trans _ _ _ hab hbc
  · intro a b
    exact lexCharLe_total _ _

theorem sortStrings_perm (l : List String) : (sortStrings l).Perm l :=
  sortBy_perm strLe l

theorem mem_sortStrings (l : List String) (a : String) :
    a ∈ sortStrings l ↔ a ∈ l :=
  (sortStrings_perm l).mem_iff

theorem resetIndex_idem (rows : List (ℕ × Row)) :
    resetIndex (resetIndex rows) = resetIndex rows := by
  simp [resetIndex, List.enum_map_snd]

theorem sortRows_sorted (cols : List String) (rows : List (ℕ × Row)) :
    (sortRows cols rows).Pairwise (fun a b => rowLe cols a b = true) :=
  sortBy_pairwise (rowLe cols) (rowLe_trans cols) (rowLe_total cols) rows

theorem sortRows_of_sorted (cols : List String) (rows : List (ℕ × Row))
    (h : rows.Pairwise (fun a b => rowLe cols a b = true)) :
    sortRows cols rows = rows :=
  sortBy_of_sorted (rowLe cols) rows h

theorem pickMatches_perm (order : List String) :
    ∀ other : List String,
      ((pickMatches order other).1 ++ (pickMatches order other).2).Perm other := by
  induction order with
  | nil => intro other; simp [pickMatches]
  | cons c order ih =>
    intro other
    cases hfind : other.find? (fun ocol => matchesCol ocol c) with
    | none => simpa [pickMatches, hfind] using ih other
    | some ocol =>
      have hmem : ocol ∈ other := List.mem_of_find?_eq_some hfind
      have hperm := ih (other.erase ocol)
      simp only [pickMatches, hfind, List.cons_append]
      exact (hperm.cons ocol).trans (List.perm_cons_erase hmem).symm

theorem pickMatches_subset (order other : List String) :
    ∀ x, (x ∈ (pickMatches order other).1 → x ∈ other) ∧
      (x ∈ (pickMatches order other).2 → x ∈ other) := by
  intro x
  have h := (pickMatches_perm order other).mem_iff (a := x)
  simp only [List.mem_append] at h
  constructor
  · intro hx; exact h.mp (Or.inl hx)
  · intro hx; exact h.mp (Or.inr hx)

/-- Replaying `pickMatches` on its own output (picked columns first, then any
list whose elements match the same canonical names as the leftovers) picks the
same columns again and leaves the new tail untouched. -/
theorem pickMatches_replay (order : List String) :
    ∀ other s : List String,
      (∀ c, (∃ x ∈ s, matchesCol x c = true) ↔
        (∃ x ∈ (pickMatches order other).2, matchesCol x c = true)) →
      pickMatches order ((pickMatches order other).1 ++ s) =
        ((pickMatches order other).1, s) := by
  induction order with
  | nil => intro other s _; simp [pickMatches]
  | cons c order ih =>
    intro other s hs
    cases hfind : other.find? (fun ocol => matchesCol ocol c) with
    | some ocol =>
      have hmatch : matchesCol ocol c = true := by
        have := List.find?_some hfind
        simpa using this
      simp only [pickMatches, hfind] at hs ⊢
      have hhead :
          (ocol :: ((pickMatches order (other.erase ocol)).1 ++ s)).find?
              (fun x => matchesCol x c) = some ocol := by
        simp [List.find?, hmatch]
      simp only [List.cons_append, hhead]
      have herase :
          (ocol :: ((pickMatches order (other.erase ocol)).1 ++ s)).erase ocol =
            (pickMatches order (other.erase ocol)).1 ++ s :=
        List.erase_cons_head ocol _
      rw [herase, ih (other.erase ocol) s hs]
    | none =>
      have hnone : ∀ x ∈ other, matchesCol x c = false := by
        intro x hx
        have := List.find?_eq_none.mp hfind x hx
        simpa using this
      simp only [pickMatches, hfind] at hs ⊢
      have hnofind :
          ((pickMatches order other).1 ++ s).find? (fun x => matchesCol x c) =
            none := by
        apply List.find?_eq_none.mpr
        intro x hx
        rcases List.mem_append.mp hx with hx1 | hx2
        · have hxother := ((pickMatches_subset order other) x).1 hx1
          simp [hnone x hxother]
        · intro hcon
          have hx' : matchesCol x c = true := by simpa using hcon
          have hex : ∃ y ∈ (pickMatches order other).2, matchesCol y c = true :=
            (hs c).mp ⟨x, hx2, hx'⟩
          obtain ⟨y, hy, hyc⟩ := hex
          have hyother := ((pickMatches_subset order other) y).2 hy
          rw [hnone y hyother] at hyc
          exact Bool.false_ne_true hyc
      simp only [hnofind]
      exact ih other s hs

theorem rowKeys_selectCols (cols : List String) (r : Row) :
    rowKeys (selectCols cols r) = cols := by
  simp only [rowKeys, selectCols, List.map_map]
  exact List.map_id _

theorem pairwise_enumFrom {Q : Row → Row → Prop} (xs : List Row)
    (hx : xs.Pairwise Q) (n : ℕ) :
    (xs.enumFrom n).Pairwise (fun a b => Q a.2 b.2) := by
  induction xs generalizing n with
  | nil => simp
  | cons x xs ih =>
    rw [List.pairwise_cons] at hx
    obtain ⟨hhead, htail⟩ := hx
    simp only [List.enumFrom, List.pairwise_cons]
    constructor
    · intro a ha
      obtain ⟨i, y⟩ := a
      obtain ⟨h1, h2, h3⟩ := List.mem_enumFrom ha
      have hy : y ∈ xs := h3 ▸ List.getElem_mem _
      exact hhead y hy
    · exact ih htail (n + 1)

theorem pairwise_resetIndex (cols : List String) (rows : List (ℕ × Row))
    (h : rows.Pairwise (fun a b => rowLe cols a b = true)) :
    (resetIndex rows).Pairwise (fun a b => rowLe cols a b = true) := by
  have hmap : (rows.map Prod.snd).Pairwise
      (fun a b => lexLe (cols.map (getCell a)) (cols.map (getCell b)) = true) := by
    rw [List.pairwise_map]
    exact h
  have := pairwise_enumFrom (Q := fun a b =>
    lexLe (cols.map (getCell a)) (cols.map (getCell b)) = true)
    (rows.map Prod.snd) hmap 0
  simpa [resetIndex, List.enum, rowLe, rowKey] using this

theorem filter_not_mem_eq_nil (l sub : List String) (hsub : ∀ x ∈ l, x ∈ sub) :
    l.filter (fun c => !(sub.contains c)) = [] := by
  apply List.filter_eq_nil_iff.mpr
  intro x hx
  simp [List.contains, List.elem_iff, hsub x hx]

theorem filter_not_mem_eq_self (l sub : List String) (hsub : ∀ x ∈ l, x ∉ sub) :
    l.filter (fun c => !(sub.contains c)) = l := by
  apply List.filter_eq_self.mpr
  intro x hx
  simp [List.contains, List.elem_iff, hsub x hx]

theorem colsSortedOf_subset (dims : List String) (x : String)
    (hx : x ∈ colsSortedOf dims) : x ∈ dims := by
  rcases List.mem_append.mp hx with h | h
  · exact ((pickMatches_subset INTERCHANGE_FORMAT_COLUMN_ORDER dims) x).1 h
  · exact ((pickMatches_subset INTERCHANGE_FORMAT_COLUMN_ORDER dims) x).2
      ((mem_sortStrings _ x).mp h)

theorem colsSortedOf_perm (dims : List String) : (colsSortedOf dims).Perm dims := by
  have h1 : (colsSortedOf dims).Perm
      ((pickMatches INTERCHANGE_FORMAT_COLUMN_ORDER dims).1 ++
        (pickMatches INTERCHANGE_FORMAT_COLUMN_ORDER dims).2) :=
    List.Perm.append_left _ (sortStrings_perm _)
  exact h1.trans (pickMatches_perm INTERCHANGE_FORMAT_COLUMN_ORDER dims)

theorem colsSortedOf_replay (dims : List String) :
    colsSortedOf (colsSortedOf dims) = colsSortedOf dims := by
  have hiff : ∀ c,
      (∃ x ∈ sortStrings (pickMatches INTERCHANGE_FORMAT_COLUMN_ORDER dims).2,
        matchesCol x c = true) ↔
      (∃ x ∈ (pickMatches INTERCHANGE_FORMAT_COLUMN_ORDER dims).2,
        matchesCol x c = true) := by
    intro c
    constructor
    · rintro ⟨x, hx, hm⟩
      exact ⟨x, (mem_sortStrings _ x).mp hx, hm⟩
    · rintro ⟨x, hx, hm⟩
      exact ⟨x, (mem_sortStrings _ x).mpr hx, hm⟩
  have hr := pickMatches_replay INTERCHANGE_FORMAT_COLUMN_ORDER dims
    (sortStrings (pickMatches INTERCHANGE_FORMAT_COLUMN_ORDER dims).2) hiff
  unfold colsSortedOf
  rw [hr]
  simp [sortStrings_idem]

theorem newColsOf_replay (cols dims : List String) :
    newColsOf (newColsOf cols dims) (colsSortedOf dims) = newColsOf cols dims := by
  have hfilter : (newColsOf cols dims).filter
      (fun c => !((colsSortedOf dims).contains c)) =
      sortStrings (cols.filter (fun c => !(dims.contains c))) := by
    unfold newColsOf
    rw [List.filter_append]
    rw [filter_not_mem_eq_nil (colsSortedOf dims) (colsSortedOf dims)
      (fun x hx => hx)]
    rw [filter_not_mem_eq_self _ (colsSortedOf dims) ?_]
    · simp
    · intro x hx hmem
      have hx' := (mem_sortStrings _ x).mp hx
      have hxin := List.of_mem_filter hx'
      have hxd := colsSortedOf_subset dims x hmem
      simp [List.contains, List.elem_iff, hxd] at hxin
  conv_lhs => rw [newColsOf]
  rw [hfilter, colsSortedOf_replay, sortStrings_idem]
  rfl

theorem newColsOf_nodup (cols dims : List String) (hnd : dims.Nodup)
    (hnc : cols.Nodup) : (newColsOf cols dims).Nodup := by
  apply List.Nodup.append
  · exact (colsSortedOf_perm dims).nodup_iff.mpr hnd
  · exact ((sortStrings_perm _).nodup_iff).mpr (List.Nodup.filter _ hnc)
  · intro x hx hx'
    have hxd := colsSortedOf_subset dims x hx
    have hx'' := (mem_sortStrings _ x).mp hx'
    have := List.of_mem_filter hx''
    simp [List.contains, List.elem_iff, hxd] at this

theorem snd_mem_of_mem_resetIndex (rows : List (ℕ × Row)) (ir : ℕ × Row)
    (h : ir ∈ resetIndex rows) : ir.2 ∈ rows.map Prod.snd := by
  obtain ⟨i, r⟩ := ir
  obtain ⟨h1, h2, h3⟩ := List.mem_enumFrom h
  exact h3 ▸ List.getElem_mem _

/-- C6 core: `sort_columns_and_rows` applied to its own output (with the
dimension list it returned) is the identity. -/
theorem sort_columns_and_rows_idem (data : DFrame) (dimensions : List String)
    (hnd : dimensions.Nodup) (hnc : data.cols.Nodup) :
    sort_columns_and_rows (sort_columns_and_rows data dimensions).1
        (sort_columns_and_rows data dimensions).2 =
      sort_columns_and_rows data dimensions := by
  have hnodup : (newColsOf data.cols dimensions).Nodup :=
    newColsOf_nodup data.cols dimensions hnd hnc
  unfold sort_columns_and_rows
  simp only
  rw [newColsOf_replay, colsSortedOf_replay]
  have hkeys : ∀ ir ∈ resetIndex (sortRows (colsSortedOf dimensions)
      (data.rows.map fun jr =>
        (jr.1, selectCols (newColsOf data.cols dimensions) jr.2))),
      rowKeys ir.2 = newColsOf data.cols dimensions := by
    intro ir hir
    have h1 := snd_mem_of_mem_resetIndex _ ir hir
    have h2 : (sortRows (colsSortedOf dimensions)
        (data.rows.map fun jr =>
          (jr.1, selectCols (newColsOf data.cols dimensions) jr.2))).Perm
        (data.rows.map fun jr =>
          (jr.1, selectCols (newColsOf data.cols dimensions) jr.2)) :=
      sortBy_perm _ _
    have h3 : ir.2 ∈ (data.rows.map fun jr =>
        (jr.1, selectCols (newColsOf data.cols dimensions) jr.2)).map Prod.snd :=
      (h2.map Prod.snd).mem_iff.mp h1
    simp only [List.map_map, List.mem_map, Function.comp] at h3
    obtain ⟨jr, _, hjr⟩ := h3
    rw [← hjr]
    exact rowKeys_selectCols _ _
  have hmapid : (resetIndex (sortRows (colsSortedOf dimensions)
      (data.rows.map fun jr =>
        (jr.1, selectCols (newColsOf data.cols dimensions) jr.2)))).map
      (fun ir => (ir.1, selectCols (newColsOf data.cols dimensions) ir.2)) =
      resetIndex (sortRows (colsSortedOf dimensions)
        (data.rows.map fun jr =>
          (jr.1, selectCols (newColsOf data.cols dimensions) jr.2))) := by
    have := List.map_congr_left (l := resetIndex (sortRows (colsSortedOf dimensions)
        (data.rows.map fun jr =>
          (jr.1, selectCols (newColsOf data.cols dimensions) jr.2))))
      (f := fun ir => (ir.1, selectCols (newColsOf data.cols dimensions) ir.2))
      (g := id) ?_
    · simpa using this
    · intro ir hir
      have hk := hkeys ir hir
      simp only [id]
      rw [selectCols_self _ _ hk hnodup]
  rw [hmapid]
  have hsorted : (resetIndex (sortRows (colsSortedOf dimensions)
      (data.rows.map fun jr =>
        (jr.1, selectCols (newColsOf data.cols dimensions) jr.2)))).Pairwise
      (fun a b => rowLe (colsSortedOf dimensions) a b = true) :=
    pairwise_resetIndex _ _ (sortRows_sorted _ _)
  rw [sortRows_of_sorted _ _ hsorted, resetIndex_idem]

theorem lookup_map_update (m : List (String × String)) (k v k' : String) :
    (m.map fun kv => (kv.1, if kv.1 = k then v else kv.2)).lookup k' =
      (m.lookup k').map fun w => if k' = k then v else w := by
  induction m with
  | nil => simp
  | cons kv m ih =>
    obtain ⟨k0, v0⟩ := kv
    by_cases hk' : k' = k0
    · subst hk'
      simp [List.lookup]
    · have hbeq : (k' == k0) = false := by simp [hk']
      simp only [List.map_cons, List.lookup, hbeq]
      exact ih

theorem lookup_append_pairs (m tail : List (String × String)) (k' : String) :
    (m ++ tail).lookup k' =
      ((m.lookup k').map some).getD (tail.lookup k') := by
  induction m with
  | nil => simp
  | cons kv m ih =>
    obtain ⟨k0, v0⟩ := kv
    by_cases hk' : k' == k0 <;> simp [List.lookup, hk', ih]

theorem lookup_dictInsert_self (m : List (String × String)) (k v : String) :
    (dictInsert m k v).lookup k = some v := by
  unfold dictInsert
  by_cases h : (m.lookup k).isSome
  · obtain ⟨w, hw⟩ := Option.isSome_iff_exists.mp h
    rw [if_pos h, lookup_map_update, hw]
    simp
  · rw [if_neg h, lookup_append_pairs, Option.not_isSome_iff_eq_none.mp h]
    simp [List.lookup]

theorem lookup_dictInsert_ne (m : List (String × String)) (k v k' : String)
    (h : k' ≠ k) : (dictInsert m k v).lookup k' = m.lookup k' := by
  unfold dictInsert
  have hbeq : (k' == k) = false := by simp [h]
  by_cases hs : (m.lookup k).isSome
  · rw [if_pos hs, lookup_map_update]
    simp only [if_neg h]
    cases m.lookup k' <;> simp
  · rw [if_neg hs, lookup_append_pairs]
    cases hm : m.lookup k' with
    | none => simp [List.lookup, hbeq]
    | some w => simp

theorem lookup_dictInsert_cases (m : List (String × String)) (k v k' v' : String)
    (h : (dictInsert m k v).lookup k' = some v') :
    (k' = k ∧ v' = v) ∨ m.lookup k' = some v' := by
  by_cases hk : k' = k
  · subst hk
    rw [lookup_dictInsert_self] at h
    exact Or.inl ⟨rfl, (Option.some.inj h).symm⟩
  · rw [lookup_dictInsert_ne m k v k' hk] at h
    exact Or.inr h

theorem strContainsSub_single_iff (a : String) (c : Char) :
    strContainsSub a (String.mk [c]) = true ↔ c ∈ a.toList := by
  unfold strContainsSub
  induction a.toList with
  | nil => simp [List.tails, List.isPrefixOf]
  | cons x xs ih =>
    simp only [List.tails, List.any_cons, List.mem_cons, Bool.or_eq_true]
    constructor
    · rintro (h | h)
      · left
        have : c = x := by
          cases xs with
          | nil => simpa [String.toList, List.isPrefixOf] using h
          | cons y ys => simpa [String.toList, List.isPrefixOf] using h
        exact this
      · right
        exact ih.mp h
    · rintro (h | h)
      · subst h
        left
        cases xs <;> simp [String.toList, List.isPrefixOf]
      · right
        exact ih.mpr h

theorem takeWhile_append_all {p : Char → Bool} (l1 l2 : List Char)
    (h : ∀ x ∈ l1, p x = true) :
    (l1 ++ l2).takeWhile p = l1 ++ l2.takeWhile p := by
  induction l1 with
  | nil => simp
  | cons x xs ih =>
    have hx : p x = true := h x (List.mem_cons_self x xs)
    simp only [List.cons_append, List.takeWhile_cons, hx, if_true]
    rw [ih fun y hy => h y (List.mem_cons_of_mem x hy)]

/-- For a well-formed full name `a ++ " (" ++ b` whose short part `a` contains
no `(`, the computed alias key is exactly `a` (the text before `" ("`). -/
theorem keyOf_wellformed (a b : String) (ha : strContainsSub a "(" = false) :
    keyOf (a ++ " (" ++ b) = a := by
  have hnotin : '(' ∉ a.toList := by
    intro hmem
    have := (strContainsSub_single_iff a '(').mpr hmem
    rw [ha] at this
    exact Bool.false_ne_true this
  have hall : ∀ x ∈ a.toList, (decide (x ≠ '(')) = true := by
    intro x hx
    by_cases hxc : x = '('
    · exact absurd (hxc ▸ hx) hnotin
    · simp [hxc]
  unfold keyOf
  have htl : (a ++ " (" ++ b).toList = a.toList ++ (' ' :: '(' :: b.toList) := by
    simp [String.toList, String.data_append]
  rw [htl, takeWhile_append_all _ _ hall]
  have : (' ' :: '(' :: b.toList).takeWhile (fun c => decide (c ≠ '(')) =
      [' '] := by
    simp [List.takeWhile_cons]
  rw [this]
  have hdrop : (a.toList ++ [' ']).dropLast = a.toList := by
    simp
  rw [hdrop]
  rfl

/-- The fold of `dim_alias_translations` never disturbs an existing binding
whose key is not among the upcoming alias keys. -/
theorem foldInsert_persist (ds : List String) :
    ∀ (ret : List (String × String)) (k v : String),
      ret.lookup k = some v →
      (∀ d ∈ ds, strContainsSub d " (" = true → keyOf d ≠ k) →
      (ds.foldl
        (fun ret d =>
          if strContainsSub d " (" then dictInsert ret (keyOf d) d else ret)
        ret).lookup k = some v := by
  induction ds with
  | nil => intro ret k v hret _; simpa using hret
  | cons d ds ih =>
    intro ret k v hret hnew
    simp only [List.foldl_cons]
    by_cases hd : strContainsSub d " ("
    · rw [if_pos hd]
      apply ih
      · rw [lookup_dictInsert_ne _ _ _ _ ?_]
        · exact hret
        · intro he
          exact hnew d (List.mem_cons_self d ds) hd he.symm
      · intro e he hpe
        exact hnew e (List.mem_cons_of_mem d he) hpe
    · rw [if_neg hd]
      exact ih ret k v hret fun e he hpe => hnew e (List.mem_cons_of_mem d he) hpe

theorem foldInsert_maps (ds : List String) :
    ∀ ret : List (String × String),
      (((ds.filter fun d => strContainsSub d " (").map keyOf).Nodup) →
      ∀ d ∈ ds, strContainsSub d " (" = true →
      (ds.foldl
        (fun ret d =>
          if strContainsSub d " (" then dictInsert ret (keyOf d) d else ret)
        ret).lookup (keyOf d) = some d := by
  induction ds with
  | nil => intro ret _ d hd; simp at hd
  | cons d' ds ih =>
    intro ret hnd d hd hpd
    simp only [List.foldl_cons]
    rcases List.mem_cons.mp hd with heq | htail
    · subst heq
      rw [if_pos hpd]
      apply foldInsert_persist
      · exact lookup_dictInsert_self ret (keyOf d) d
      · intro e he hpe hke
        have hfe : e ∈ ds.filter fun x => strContainsSub x " (" :=
          List.mem_filter.mpr ⟨he, hpe⟩
        have : keyOf d ∉ (ds.filter fun x => strContainsSub x " (").map keyOf := by
          have hfd : (d :: ds).filter (fun x => strContainsSub x " (") =
              d :: ds.filter fun x => strContainsSub x " (" := by
            simp [List.filter_cons, hpd]
          rw [hfd, List.map_cons, List.nodup_cons] at hnd
          exact hnd.1
        exact this (hke ▸ List.mem_map_of_mem keyOf hfe)
    · by_cases hpd' : strContainsSub d' " ("
      · rw [if_pos hpd']
        apply ih
        · have hfd : (d' :: ds).filter (fun x => strContainsSub x " (") =
              d' :: ds.filter fun x => strContainsSub x " (" := by
            simp [List.filter_cons, hpd']
          rw [hfd, List.map_cons, List.nodup_cons] at hnd
          exact hnd.2
        · exact htail
        · exact hpd
      · rw [if_neg hpd']
        apply ih
        · have hfd : (d' :: ds).filter (fun x => strContainsSub x " (") =
              ds.filter fun x => strContainsSub x " (" := by
            simp [List.filter_cons, hpd']
          rw [hfd] at hnd
          exact hnd
        · exact htail
        · exact hpd

theorem foldInsert_provenance (ds : List String) (Q : String → String → Prop) :
    ∀ ret : List (String × String),
      (∀ k v, ret.lookup k = some v → Q k v) →
      (∀ d ∈ ds, strContainsSub d " (" = true → Q (keyOf d) d) →
      ∀ k v,
        (ds.foldl
          (fun ret d =>
            if strContainsSub d " (" then dictInsert ret (keyOf d) d else ret)
          ret).lookup k = some v → Q k v := by
  induction ds with
  | nil => intro ret hret _ k v h; exact hret k v (by simpa using h)
  | cons d ds ih =>
    intro ret hret hds k v h
    simp only [List.foldl_cons] at h
    by_cases hpd : strContainsSub d " ("
    · rw [if_pos hpd] at h
      refine ih _ ?_ (fun e he hpe => hds e (List.mem_cons_of_mem d he) hpe) k v h
      intro k' v' h'
      rcases lookup_dictInsert_cases ret (keyOf d) d k' v' h' with ⟨hk, hv⟩ | hm
      · rw [hk, hv]
        exact hds d (List.mem_cons_self d ds) hpd
      · exact hret k' v' hm
    · rw [if_neg hpd] at h
      exact ih ret hret (fun e he hpe => hds e (List.mem_cons_of_mem d he) hpe) k v h

theorem mem_firstUniqueAux (l : List Value) :
    ∀ (seen : List Value) (x : Value),
      x ∈ firstUniqueAux seen l ↔ x ∈ l ∧ x ∉ seen := by
  induction l with
  | nil => intro seen x; simp [firstUniqueAux]
  | cons y ys ih =>
    intro seen x
    by_cases hy : y ∈ seen
    · rw [firstUniqueAux, if_pos hy, ih]
      constructor
      · rintro ⟨h1, h2⟩
        exact ⟨List.mem_cons_of_mem y h1, h2⟩
      · rintro ⟨h1, h2⟩
        rcases List.mem_cons.mp h1 with h | h
        · exact absurd (h ▸ hy) h2
        · exact ⟨h, h2⟩
    · rw [firstUniqueAux, if_neg hy]
      constructor
      · intro h
        rcases List.mem_cons.mp h with h | h
        · exact ⟨h ▸ List.mem_cons_self y ys, h ▸ hy⟩
        · rw [ih] at h
          obtain ⟨h1, h2⟩ := h
          refine ⟨List.mem_cons_of_mem y h1, fun hx => ?_⟩
          exact h2 (List.mem_cons_of_mem y hx)
      · rintro ⟨h1, h2⟩
        rcases List.mem_cons.mp h1 with h | h
        · exact h ▸ List.mem_cons_self y _
        · by_cases hxy : x = y
          · exact hxy ▸ List.mem_cons_self y _
          · refine List.mem_cons_of_mem y ((ih _ x).mpr ⟨h, fun hx => ?_⟩)
            rcases List.mem_cons.mp hx with h' | h'
            · exact hxy h'
            · exact h2 h'

theorem nodup_firstUniqueAux (l : List Value) :
    ∀ seen : List Value, (firstUniqueAux seen l).Nodup := by
  induction l with
  | nil => intro seen; simp [firstUniqueAux]
  | cons y ys ih =>
    intro seen
    by_cases hy : y ∈ seen
    · rw [firstUniqueAux, if_pos hy]
      exact ih seen
    · rw [firstUniqueAux, if_neg hy]
      refine List.Nodup.cons ?_ (ih (y :: seen))
      intro hmem
      have := (mem_firstUniqueAux ys (y :: seen) y).mp hmem
      exact this.2 (List.mem_cons_self y seen)

theorem mem_firstUnique (l : List Value) (x : Value) :
    x ∈ firstUnique l ↔ x ∈ l := by
  unfold firstUnique
  rw [mem_firstUniqueAux]
  simp

theorem nodup_firstUnique (l : List Value) : (firstUnique l).Nodup :=
  nodup_firstUniqueAux l []

theorem entity_convRow (convFactor : Value → Value → ℚ)
    (entityCol unitCol : String) (dataCols : List String) (u0 : Value)
    (ir : ℕ × Row) (hneq : entityCol ≠ unitCol) (hedc : entityCol ∉ dataCols) :
    getCell (convRow convFactor unitCol dataCols u0 ir).2 entityCol =
      getCell ir.2 entityCol := by
  unfold convRow
  rw [getCell_setCell_of_ne _ _ _ _ (Ne.symm hneq), getCell_scaleRow]
  simp [hedc]

theorem unit_convRow (convFactor : Value → Value → ℚ)
    (unitCol : String) (dataCols : List String) (u0 : Value) (ir : ℕ × Row)
    (hk : unitCol ∈ rowKeys ir.2) :
    getCell (convRow convFactor unitCol dataCols u0 ir).2 unitCol = u0 := by
  unfold convRow
  apply getCell_setCell_self
  rw [rowKeys_scaleRow]
  exact hk

theorem rowKeys_convRow (convFactor : Value → Value → ℚ)
    (unitCol : String) (dataCols : List String) (u0 : Value) (ir : ℕ × Row) :
    rowKeys (convRow convFactor unitCol dataCols u0 ir).2 = rowKeys ir.2 := by
  unfold convRow
  rw [rowKeys_setCell, rowKeys_scaleRow]

theorem entity_harmonizedRow (convFactor : Value → Value → ℚ)
    (entityCol unitCol : String) (dataCols : List String)
    (rows : List (ℕ × Row)) (ir : ℕ × Row) (hneq : entityCol ≠ unitCol)
    (hedc : entityCol ∉ dataCols) :
    getCell (harmonizedRow convFactor entityCol unitCol dataCols rows ir).2
      entityCol = getCell ir.2 entityCol := by
  unfold harmonizedRow
  split
  · rfl
  · rfl
  · split
    · rfl
    · exact entity_convRow _ _ _ _ _ _ hneq hedc

theorem rowKeys_harmonizedRow (convFactor : Value → Value → ℚ)
    (entityCol unitCol : String) (dataCols : List String)
    (rows : List (ℕ × Row)) (ir : ℕ × Row) :
    rowKeys (harmonizedRow convFactor entityCol unitCol dataCols rows ir).2 =
      rowKeys ir.2 := by
  unfold harmonizedRow
  split
  · rfl
  · rfl
  · split
    · rfl
    · exact rowKeys_convRow _ _ _ _ _

theorem fst_harmonizedRow (convFactor : Value → Value → ℚ)
    (entityCol unitCol : String) (dataCols : List String)
    (rows : List (ℕ × Row)) (ir : ℕ × Row) :
    (harmonizedRow convFactor entityCol unitCol dataCols rows ir).1 = ir.1 := by
  unfold harmonizedRow
  split
  · rfl
  · rfl
  · split
    · rfl
    · rfl

/-- The inner unit loop of `harmonize_units`: processing the pending units
one by one converts exactly the rows of entity `e` whose unit is among the
processed units. -/
theorem harmonize_inner_fold (convFactor : Value → Value → ℚ)
    (entityCol unitCol : String) (dataCols : List String) (e u0 : Value)
    (rows : List (ℕ × Row))
    (hkeys : ∀ ir ∈ rows, unitCol ∈ rowKeys ir.2) :
    ∀ toProcess done : List Value,
      toProcess.Nodup →
      (∀ u ∈ toProcess, u ∉ done ∧ u ≠ u0) →
      toProcess.foldl
        (fun cur u =>
          cur.map fun ir =>
            if getCell ir.2 entityCol = e ∧ getCell ir.2 unitCol = u then
              (ir.1, setCell unitCol u0
                (scaleRow dataCols (convFactor u u0) ir.2))
            else ir)
        (rows.map fun ir =>
          if getCell ir.2 entityCol = e ∧ getCell ir.2 unitCol ∈ done then
            convRow convFactor unitCol dataCols u0 ir
          else ir)
      = rows.map fun ir =>
          if getCell ir.2 entityCol = e ∧
              getCell ir.2 unitCol ∈ done ++ toProcess then
            convRow convFactor unitCol dataCols u0 ir
          else ir := by
  intro toProcess
  induction toProcess with
  | nil =>
    intro done _ _
    simp
  | cons u us ih =>
    intro done hnd hu
    obtain ⟨hu1, hu2⟩ := hu u (List.mem_cons_self u us)
    rw [List.foldl_cons, List.map_map]
    have hstep : ∀ ir ∈ rows,
        ((fun jr =>
            if getCell jr.2 entityCol = e ∧ getCell jr.2 unitCol = u then
              (jr.1, setCell unitCol u0
                (scaleRow dataCols (convFactor u u0) jr.2))
            else jr) ∘
          (fun ir =>
            if getCell ir.2 entityCol = e ∧ getCell ir.2 unitCol ∈ done then
              convRow convFactor unitCol dataCols u0 ir
            else ir)) ir =
        (fun ir =>
          if getCell ir.2 entityCol = e ∧
              getCell ir.2 unitCol ∈ done ++ [u] then
            convRow convFactor unitCol dataCols u0 ir
          else ir) ir := by
      intro ir hir
      simp only [Function.comp]
      by_cases he : getCell ir.2 entityCol = e
      · by_cases hd : getCell ir.2 unitCol ∈ done
        · have hinner :
              (if getCell ir.2 entityCol = e ∧ getCell ir.2 unitCol ∈ done
                then convRow convFactor unitCol dataCols u0 ir else ir) =
                convRow convFactor unitCol dataCols u0 ir := if_pos ⟨he, hd⟩
          rw [hinner]
          have hunit : getCell (convRow convFactor unitCol dataCols u0 ir).2
              unitCol = u0 :=
            unit_convRow _ _ _ _ _ (hkeys ir hir)
          have hno : ¬(getCell (convRow convFactor unitCol dataCols u0 ir).2
                entityCol = e ∧
              getCell (convRow convFactor unitCol dataCols u0 ir).2
                unitCol = u) := by
            rintro ⟨_, hcon⟩
            rw [hunit] at hcon
            exact hu2 hcon.symm
          rw [if_neg hno, if_pos ⟨he, List.mem_append_left [u] hd⟩]
        · have hinner :
              (if getCell ir.2 entityCol = e ∧ getCell ir.2 unitCol ∈ done
                then convRow convFactor unitCol dataCols u0 ir else ir) =
                ir := if_neg (fun hc => hd hc.2)
          rw [hinner]
          by_cases huu : getCell ir.2 unitCol = u
          · rw [if_pos ⟨he, huu⟩,
              if_pos ⟨he, List.mem_append_right done
                (huu ▸ List.mem_cons_self u [])⟩]
            unfold convRow
            rw [huu]
          · have hno2 : ¬(getCell ir.2 entityCol = e ∧
                getCell ir.2 unitCol ∈ done ++ [u]) := by
              rintro ⟨_, hcon⟩
              rcases List.mem_append.mp hcon with hc | hc
              · exact hd hc
              · rcases List.mem_cons.mp hc with hc' | hc'
                · exact huu hc'
                · exact absurd hc' (List.not_mem_nil _)
            rw [if_neg (fun hc => huu hc.2), if_neg hno2]
      · have hinner :
            (if getCell ir.2 entityCol = e ∧ getCell ir.2 unitCol ∈ done
              then convRow convFactor unitCol dataCols u0 ir else ir) =
              ir := if_neg (fun hc => he hc.1)
        rw [hinner, if_neg (fun hc => he hc.1), if_neg (fun hc => he hc.1)]
    rw [List.map_congr_left hstep]
    have := ih (done ++ [u]) (List.nodup_cons.mp hnd).2 ?_
    · rw [this, List.append_assoc]
      rfl
    · intro v hv
      constructor
      · intro hcon
        rcases List.mem_append.mp hcon with hc | hc
        · exact (hu v (List.mem_cons_of_mem u hv)).1 hc
        · rcases List.mem_cons.mp hc with hc' | hc'
          · exact (List.nodup_cons.mp hnd).1 (hc' ▸ hv)
          · exact absurd hc' (List.not_mem_nil _)
      · exact (hu v (List.mem_cons_of_mem u hv)).2

/-- The per-entity pass of `harmonize_units`, characterized: if the entity's
rows carry at most one distinct unit nothing changes; otherwise exactly the
rows of this entity whose unit differs from the entity's first-occurring unit
are converted to it. -/
theorem harmonizeEntity_spec (convFactor : Value → Value → ℚ)
    (entityCol unitCol : String) (dataCols : List String) (e : Value)
    (rows : List (ℕ × Row))
    (hkeys : ∀ ir ∈ rows, unitCol ∈ rowKeys ir.2) :
    harmonizeEntity convFactor entityCol unitCol dataCols e rows =
      match entityUnitsOf entityCol unitCol rows e with
      | [] => rows
      | u0 :: rest =>
        rows.map fun ir =>
          if getCell ir.2 entityCol = e ∧ getCell ir.2 unitCol ∈ rest then
            convRow convFactor unitCol dataCols u0 ir
          else ir := by
  unfold harmonizeEntity entityUnitsOf
  cases hu : firstUnique
      ((rows.filter fun ir => getCell ir.2 entityCol == e).map
        fun ir => getCell ir.2 unitCol) with
  | nil => rfl
  | cons u0 rest =>
    simp only
    have hnd : (u0 :: rest).Nodup := hu ▸ nodup_firstUnique _
    have h0 : (rows.map fun ir =>
        if getCell ir.2 entityCol = e ∧
            getCell ir.2 unitCol ∈ ([] : List Value) then
          convRow convFactor unitCol dataCols u0 ir
        else ir) = rows := by
      have : ∀ ir ∈ rows, (fun ir =>
          if getCell ir.2 entityCol = e ∧
              getCell ir.2 unitCol ∈ ([] : List Value) then
            convRow convFactor unitCol dataCols u0 ir
          else ir) ir = id ir := by
        intro ir _
        simp
      rw [List.map_congr_left this, List.map_id]
    have hfold := harmonize_inner_fold convFactor entityCol unitCol dataCols
      e u0 rows hkeys rest [] (List.nodup_cons.mp hnd).2 ?_
    · rw [h0] at hfold
      rw [hfold]
      rfl
    · intro v hv
      exact ⟨List.not_mem_nil v, fun hc =>
        (List.nodup_cons.mp hnd).1 (hc ▸ hv)⟩

/-- The outer entity loop of `harmonize_units`: processing the pending
entities one by one rewrites exactly the rows of the processed entities
according to `harmonizedRow` (phrased against the original row list). -/
theorem harmonize_outer_fold (convFactor : Value → Value → ℚ)
    (entityCol unitCol : String) (dataCols : List String)
    (rows : List (ℕ × Row)) (hneq : entityCol ≠ unitCol)
    (hedc : entityCol ∉ dataCols)
    (hkeys : ∀ ir ∈ rows, unitCol ∈ rowKeys ir.2) :
    ∀ toProcess done : List Value,
      toProcess.Nodup →
      (∀ e ∈ toProcess, e ∉ done) →
      toProcess.foldl
        (fun cur e => harmonizeEntity convFactor entityCol unitCol dataCols e cur)
        (rows.map fun ir =>
          if getCell ir.2 entityCol ∈ done then
            harmonizedRow convFactor entityCol unitCol dataCols rows ir
          else ir)
      = rows.map fun ir =>
          if getCell ir.2 entityCol ∈ done ++ toProcess then
            harmonizedRow convFactor entityCol unitCol dataCols rows ir
          else ir := by
  intro toProcess
  induction toProcess with
  | nil =>
    intro done _ _
    simp
  | cons e es ih =>
    intro done hnd hdis
    have hel : e ∉ done := hdis e (List.mem_cons_self e es)
    rw [List.foldl_cons]
    have hgent : ∀ ir : ℕ × Row,
        getCell ((if getCell ir.2 entityCol ∈ done then
            harmonizedRow convFactor entityCol unitCol dataCols rows ir
          else ir)).2 entityCol = getCell ir.2 entityCol := by
      intro ir
      by_cases h : getCell ir.2 entityCol ∈ done
      · rw [if_pos h]
        exact entity_harmonizedRow _ _ _ _ _ _ hneq hedc
      · rw [if_neg h]
    have hstate_keys : ∀ jr ∈ rows.map fun ir =>
        (if getCell ir.2 entityCol ∈ done then
          harmonizedRow convFactor entityCol unitCol dataCols rows ir
        else ir), unitCol ∈ rowKeys jr.2 := by
      intro jr hjr
      obtain ⟨ir, hir, hjr'⟩ := List.mem_map.mp hjr
      rw [← hjr']
      by_cases h : getCell ir.2 entityCol ∈ done
      · rw [if_pos h, rowKeys_harmonizedRow]
        exact hkeys ir hir
      · rw [if_neg h]
        exact hkeys ir hir
    have hfilter : (rows.map fun ir =>
        (if getCell ir.2 entityCol ∈ done then
          harmonizedRow convFactor entityCol unitCol dataCols rows ir
        else ir)).filter (fun jr => getCell jr.2 entityCol == e) =
        rows.filter fun ir => getCell ir.2 entityCol == e := by
      rw [List.filter_map]
      have hcond : rows.filter ((fun jr => getCell jr.2 entityCol == e) ∘
          fun ir => (if getCell ir.2 entityCol ∈ done then
            harmonizedRow convFactor entityCol unitCol dataCols rows ir
          else ir)) = rows.filter fun ir => getCell ir.2 entityCol == e := by
        apply List.filter_congr
        intro ir _
        simp only [Function.comp, hgent ir]
      rw [hcond]
      have : ∀ ir ∈ rows.filter fun ir => getCell ir.2 entityCol == e,
          (fun ir => (if getCell ir.2 entityCol ∈ done then
            harmonizedRow convFactor entityCol unitCol dataCols rows ir
          else ir)) ir = id ir := by
        intro ir hir
        have he : getCell ir.2 entityCol = e := by
          have := List.of_mem_filter hir
          simpa using this
        show (if getCell ir.2 entityCol ∈ done then
            harmonizedRow convFactor entityCol unitCol dataCols rows ir
          else ir) = ir
        exact if_neg fun hc => hel (he ▸ hc)
      rw [List.map_congr_left this, List.map_id]
    have hunits : entityUnitsOf entityCol unitCol
        (rows.map fun ir =>
          (if getCell ir.2 entityCol ∈ done then
            harmonizedRow convFactor entityCol unitCol dataCols rows ir
          else ir)) e = entityUnitsOf entityCol unitCol rows e := by
      unfold entityUnitsOf
      rw [hfilter]
    rw [harmonizeEntity_spec convFactor entityCol unitCol dataCols e _
      hstate_keys, hunits]
    have hstep : (match entityUnitsOf entityCol unitCol rows e with
        | [] => rows.map fun ir =>
            (if getCell ir.2 entityCol ∈ done then
              harmonizedRow convFactor entityCol unitCol dataCols rows ir
            else ir)
        | u0 :: rest =>
          (rows.map fun ir =>
            (if getCell ir.2 entityCol ∈ done then
              harmonizedRow convFactor entityCol unitCol dataCols rows ir
            else ir)).map fun ir =>
              if getCell ir.2 entityCol = e ∧ getCell ir.2 unitCol ∈ rest then
                convRow convFactor unitCol dataCols u0 ir
              else ir)
        = rows.map fun ir =>
            if getCell ir.2 entityCol ∈ done ++ [e] then
              harmonizedRow convFactor entityCol unitCol dataCols rows ir
            else ir := by
      cases huc : entityUnitsOf entityCol unitCol rows e with
      | nil =>
        simp only
        apply List.map_congr_left
        intro ir hir
        by_cases hd : getCell ir.2 entityCol ∈ done
        · rw [if_pos hd, if_pos (List.mem_append_left [e] hd)]
        · rw [if_neg hd]
          by_cases hee : getCell ir.2 entityCol = e
          · rw [if_pos (List.mem_append_right done
              (hee ▸ List.mem_cons_self e []))]
            unfold harmonizedRow
            rw [hee, huc]
          · rw [if_neg ?_]
            rintro hc
            rcases List.mem_append.mp hc with hc' | hc'
            · exact hd hc'
            · rcases List.mem_cons.mp hc' with hc'' | hc''
              · exact hee hc''
              · exact absurd hc'' (List.not_mem_nil _)
      | cons u0 rest =>
        simp only [List.map_map]
        apply List.map_congr_left
        intro ir hir
        simp only [Function.comp]
        have hndu : (u0 :: rest).Nodup := huc ▸ nodup_firstUnique _
        by_cases hd : getCell ir.2 entityCol ∈ done
        · have hinner :
              (if getCell ir.2 entityCol ∈ done then
                harmonizedRow convFactor entityCol unitCol dataCols rows ir
              else ir) =
                harmonizedRow convFactor entityCol unitCol dataCols rows ir :=
            if_pos hd
          rw [hinner]
          have hente : getCell (harmonizedRow convFactor entityCol unitCol
              dataCols rows ir).2 entityCol ≠ e := by
            rw [entity_harmonizedRow _ _ _ _ _ _ hneq hedc]
            intro hc
            exact hel (hc ▸ hd)
          rw [if_neg (fun hc => hente hc.1),
            if_pos (List.mem_append_left [e] hd)]
        · have hinner :
              (if getCell ir.2 entityCol ∈ done then
                harmonizedRow convFactor entityCol unitCol dataCols rows ir
              else ir) = ir := if_neg hd
          rw [hinner]
          by_cases hee : getCell ir.2 entityCol = e
          · have hmemu : getCell ir.2 unitCol ∈ u0 :: rest := by
              rw [← huc]
              unfold entityUnitsOf
              rw [mem_firstUnique]
              apply List.mem_map_of_mem
              apply List.mem_filter.mpr
              exact ⟨hir, by simpa using hee⟩
            have hrw : harmonizedRow convFactor entityCol unitCol dataCols
                rows ir =
                if getCell ir.2 unitCol ∈ rest then
                  convRow convFactor unitCol dataCols u0 ir
                else ir := by
              unfold harmonizedRow
              rw [hee, huc]
              cases rest with
              | nil =>
                simp only
                rw [if_neg (List.not_mem_nil _)]
              | cons r1 rs =>
                simp only
                by_cases hu0 : getCell ir.2 unitCol = u0
                · rw [if_pos hu0, if_neg]
                  intro hc
                  exact (List.nodup_cons.mp hndu).1 (hu0 ▸ hc)
                · rw [if_neg hu0, if_pos]
                  rcases List.mem_cons.mp hmemu with hc | hc
                  · exact absurd hc hu0
                  · exact hc
            rw [if_pos (List.mem_append_right done
              (hee ▸ List.mem_cons_self e [])), hrw]
            by_cases hur : getCell ir.2 unitCol ∈ rest
            · rw [if_pos ⟨hee, hur⟩, if_pos hur]
            · rw [if_neg (fun hc => hur hc.2), if_neg hur]
          · rw [if_neg (fun hc => hee hc.1), if_neg ?_]
            rintro hc
            rcases List.mem_append.mp hc with hc' | hc'
            · exact hd hc'
            · rcases List.mem_cons.mp hc' with hc'' | hc''
              · exact hee hc''
              · exact absurd hc'' (List.not_mem_nil _)
    rw [hstep]
    have hres := ih (done ++ [e]) (List.nodup_cons.mp hnd).2 ?_
    · rw [hres, List.append_assoc]
      rfl
    · intro v hv hc
      rcases List.mem_append.mp hc with hc' | hc'
      · exact hdis v (List.mem_cons_of_mem e hv) hc'
      · rcases List.mem_cons.mp hc' with hc'' | hc''
        · exact (List.nodup_cons.mp hnd).1 (hc'' ▸ hv)
        · exact absurd hc'' (List.not_mem_nil _)

/-- Full characterization of `harmonize_units`: every row of the output is
the `harmonizedRow` image of the corresponding input row — rows of an entity
with more than one distinct unit are converted to the entity's
first-occurring unit (data columns scaled by the conversion factor, unit
column rewritten), all other rows are untouched. -/
theorem harmonize_units_spec (convFactor : Value → Value → ℚ) (df : DFrame)
    (dimensions : List String) (attrs : XrAttrs)
    (hneq : entityColOf attrs ≠ unitColOf attrs)
    (hedc : entityColOf attrs ∉ dataColsOf df.cols dimensions)
    (hkeys : ∀ ir ∈ df.rows, unitColOf attrs ∈ rowKeys ir.2) :
    harmonize_units convFactor df dimensions attrs =
      ⟨df.cols,
       df.rows.map
         (harmonizedRow convFactor (entityColOf attrs) (unitColOf attrs)
           (dataColsOf df.cols dimensions) df.rows)⟩ := by
  unfold harmonize_units
  have h0 : df.rows = df.rows.map fun ir =>
      if getCell ir.2 (entityColOf attrs) ∈ ([] : List Value) then
        harmonizedRow convFactor (entityColOf attrs) (unitColOf attrs)
          (dataColsOf df.cols dimensions) df.rows ir
      else ir := by
    have : ∀ ir ∈ df.rows, id ir = (fun ir =>
        if getCell ir.2 (entityColOf attrs) ∈ ([] : List Value) then
          harmonizedRow convFactor (entityColOf attrs) (unitColOf attrs)
            (dataColsOf df.cols dimensions) df.rows ir
        else ir) ir := by
      intro ir _
      simp
    rw [← List.map_congr_left this, List.map_id]
  conv_lhs =>
    rw [show ((firstUnique (df.rows.map fun ir =>
        getCell ir.2 (entityColOf attrs))).foldl
      (fun rows e => harmonizeEntity convFactor (entityColOf attrs)
        (unitColOf attrs) (dataColsOf df.cols dimensions) e rows)
      df.rows) = ((firstUnique (df.rows.map fun ir =>
        getCell ir.2 (entityColOf attrs))).foldl
      (fun rows e => harmonizeEntity convFactor (entityColOf attrs)
        (unitColOf attrs) (dataColsOf df.cols dimensions) e rows)
      (df.rows.map fun ir =>
        if getCell ir.2 (entityColOf attrs) ∈ ([] : List Value) then
          harmonizedRow convFactor (entityColOf attrs) (unitColOf attrs)
            (dataColsOf df.cols dimensions) df.rows ir
        else ir)) from by rw [← h0]]
  rw [harmonize_outer_fold convFactor (entityColOf attrs) (unitColOf attrs)
    (dataColsOf df.cols dimensions) df.rows hneq hedc hkeys
    (firstUnique (df.rows.map fun ir => getCell ir.2 (entityColOf attrs)))
    [] (nodup_firstUnique _) (fun e _ => List.not_mem_nil e)]
  have hfin : ∀ ir ∈ df.rows, (fun ir =>
      if getCell ir.2 (entityColOf attrs) ∈
          [] ++ firstUnique (df.rows.map fun ir =>
            getCell ir.2 (entityColOf attrs)) then
        harmonizedRow convFactor (entityColOf attrs) (unitColOf attrs)
          (dataColsOf df.cols dimensions) df.rows ir
      else ir) ir =
      harmonizedRow convFactor (entityColOf attrs) (unitColOf attrs)
        (dataColsOf df.cols dimensions) df.rows ir := by
    intro ir hir
    have : getCell ir.2 (entityColOf attrs) ∈
        firstUnique (df.rows.map fun ir => getCell ir.2 (entityColOf attrs)) := by
      rw [mem_firstUnique]
      exact List.mem_map_of_mem _ hir
    simp only [List.nil_append]
    rw [if_pos this]
  rw [List.map_congr_left hfin]

/-- C3 core: `filter_data` keeps exactly the surviving rows, in their
original order, with the index rebuilt contiguously from 0. -/
theorem filter_data_spec (data : DFrame) (fk fr : List FilterSpec) :
    filter_data data fk fr =
      ⟨data.cols,
       resetIndex (data.rows.filter fun ir => survives fk fr ir.2)⟩ := by
  show (⟨data.cols,
    resetIndex
      (if fr.isEmpty then
        (if fk.isEmpty then data.rows
         else data.rows.filter fun ir => fk.any fun spec => matchesSpec spec ir.2)
      else
        (if fk.isEmpty then data.rows
         else data.rows.filter fun ir =>
           fk.any fun spec => matchesSpec spec ir.2).filter
          fun ir => fr.all fun spec => !(matchesSpec spec ir.2))⟩ : DFrame) = _
  congr 1
  by_cases hk : fk.isEmpty <;> by_cases hr : fr.isEmpty
  · rw [if_pos hk, if_pos hr]
    have : (data.rows.filter fun ir => survives fk fr ir.2) = data.rows := by
      apply List.filter_eq_self.mpr
      intro ir _
      rcases List.isEmpty_iff.mp hr with h
      rcases List.isEmpty_iff.mp hk with h'
      simp [survives, h, h']
    rw [this]
  · rw [if_pos hk, if_neg hr]
    apply congrArg
    apply List.filter_congr
    intro ir _
    rcases List.isEmpty_iff.mp hk with h
    simp [survives, h, List.not_any_eq_all_not]
  · rw [if_neg hk, if_pos hr]
    apply congrArg
    apply List.filter_congr
    intro ir _
    rcases List.isEmpty_iff.mp hr with h
    simp [survives, h, hk]
  · rw [if_neg hk, if_neg hr]
    apply congrArg
    rw [List.filter_filter]
    apply List.filter_congr
    intro ir _
    simp [survives, hk, List.not_any_eq_all_not, Bool.and_comm]

/-- The rebuilt index of a filtered table is contiguous from 0. -/
theorem filter_data_index (data : DFrame) (fk fr : List FilterSpec) :
    (filter_data data fk fr).rows.map Prod.fst =
      List.range (filter_data data fk fr).rows.length := by
  rw [filter_data_spec]
  simp only [resetIndex, List.enum_map_fst, List.enum_length]

theorem aliasList_eq_mapM (l : List String)
    (translations : List (String × String)) (dims : List String) :
    aliasList l translations dims =
      l.mapM fun d => aliasStr d translations dims := by
  induction l with
  | nil => rfl
  | cons d rest ih =>
    rw [List.mapM_cons, aliasList, ih]
    rfl

theorem lookup_filter_ne {R : Type} (mm : List (String × R)) (k : String) :
    (mm.filter fun kv => kv.1 ≠ k).lookup k = none := by
  induction mm with
  | nil => rfl
  | cons kv mm ih =>
    obtain ⟨k0, v0⟩ := kv
    by_cases hk : k0 = k
    · subst hk
      simp only [List.filter_cons]
      rw [if_neg (by simp)]
      exact ih
    · simp only [List.filter_cons]
      rw [if_pos (by simpa using hk)]
      have hbeq : (k == k0) = false := by
        simp only [beq_eq_false_iff_ne, ne_eq]
        exact fun h => hk h.symm
      simp only [List.lookup, hbeq]
      exact ih

/-- The final state of the caller's `meta_mapping` dict after `map_metadata`:
when an `"entity"` rule is present it is popped, so the entity key is gone. -/
theorem map_metadata_final (R : Type)
    (mapUnordered : DFrame → List (String × R) → XrAttrs → DFrame)
    (df : DFrame) (mm : List (String × R)) (attrs : XrAttrs) (rule : R)
    (h : mm.lookup "entity" = some rule) :
    (map_metadata mapUnordered df mm attrs).2 =
        mm.filter (fun kv => kv.1 ≠ "entity") ∧
      ((map_metadata mapUnordered df mm attrs).2).lookup "entity" = none := by
  unfold map_metadata
  rw [h]
  exact ⟨rfl, lookup_filter_ne mm "entity"⟩

theorem exceptBind_ok {ε α β : Type} (a : α) (f : α → Except ε β) :
    (Except.ok a >>= f) = f a := rfl

theorem exceptBind_err {ε α β : Type} (e : ε) (f : α → Except ε β) :
    ((Except.error e : Except ε α) >>= f) = Except.error e := rfl

theorem exceptPure_eq {ε α : Type} (a : α) : (pure a : Except ε α) = Except.ok a := rfl

theorem check_mandatory_error (cc : List (String × String))
    (cd : List (String × Value)) (e : ConvError)
    (h : check_mandatory_dimensions cc cd = .error e) :
    ∃ d, e = .mandatoryMissing d ∧ d ∈ INTERCHANGE_FORMAT_MANDATORY_COLUMNS ∧
      cc.lookup d = none ∧ cd.lookup d = none := by
  unfold check_mandatory_dimensions at h
  cases hfind : INTERCHANGE_FORMAT_MANDATORY_COLUMNS.find? (fun coord =>
      !(cc.lookup coord).isSome && !(cd.lookup coord).isSome) with
  | none => rw [hfind] at h; exact absurd h (by simp)
  | some d =>
    rw [hfind] at h
    injection h with h
    have hmem := List.mem_of_find?_eq_some hfind
    have hpred := List.find?_some hfind
    rw [Bool.and_eq_true, Bool.not_eq_true', Bool.not_eq_true'] at hpred
    refine ⟨d, h.symm, hmem, ?_, ?_⟩
    · cases hc : cc.lookup d with
      | none => rfl
      | some v => rw [hc] at hpred; exact absurd hpred.1 (by simp)
    · cases hc : cd.lookup d with
      | none => rfl
      | some v => rw [hc] at hpred; exact absurd hpred.2 (by simp)

theorem check_mandatory_covers (cc : List (String × String))
    (cd : List (String × Value)) (u : Unit)
    (h : check_mandatory_dimensions cc cd = .ok u)
    (d : String) (hd : d ∈ INTERCHANGE_FORMAT_MANDATORY_COLUMNS)
    (h1 : cc.lookup d = none) (h2 : cd.lookup d = none) : False := by
  unfold check_mandatory_dimensions at h
  cases hfind : INTERCHANGE_FORMAT_MANDATORY_COLUMNS.find? (fun coord =>
      !(cc.lookup coord).isSome && !(cd.lookup coord).isSome) with
  | some d' => rw [hfind] at h; exact Except.noConfusion h
  | none =>
    have := List.find?_eq_none.mp hfind d hd
    apply this
    rw [h1, h2]
    rfl

theorem check_overlap_error (cc : List (String × String))
    (cd : List (String × Value)) (e : ConvError)
    (h : check_overlapping_specifications cc cd = .error e) :
    ∃ ks, e = .overlappingSpec ks ∧ ks ≠ [] ∧
      ∀ k ∈ ks, k ∈ cc.map Prod.fst ∧ (cd.lookup k).isSome = true := by
  unfold check_overlapping_specifications at h
  by_cases hboth : ((cc.map Prod.fst).filter
      fun k => (cd.lookup k).isSome).isEmpty = true
  · rw [if_pos hboth] at h; exact Except.noConfusion h
  · rw [if_neg hboth] at h
    injection h with h
    refine ⟨_, h.symm, ?_, ?_⟩
    · intro hnil
      exact hboth (by rw [hnil]; rfl)
    · intro k hk
      exact List.mem_filter.mp hk

theorem check_overlap_disjoint (cc : List (String × String))
    (cd : List (String × Value)) (u : Unit)
    (h : check_overlapping_specifications cc cd = .ok u)
    (k : String) (hk : k ∈ cc.map Prod.fst)
    (hsome : (cd.lookup k).isSome = true) : False := by
  unfold check_overlapping_specifications at h
  by_cases hboth : ((cc.map Prod.fst).filter
      fun k => (cd.lookup k).isSome).isEmpty = true
  · have hnil := List.isEmpty_iff.mp hboth
    have : k ∈ ((cc.map Prod.fst).filter fun k => (cd.lookup k).isSome) :=
      List.mem_filter.mpr ⟨hk, hsome⟩
    rw [hnil] at this
    exact absurd this (List.not_mem_nil k)
  · rw [if_neg hboth] at h; exact Except.noConfusion h

theorem check_addcols_error (cc : List (String × String))
    (addc : List (String × String × String)) (e : ConvError)
    (h : check_overlapping_specifications_add_cols cc addc = .error e) :
    ∃ cs, e = .overlappingAddCols cs ∧ cs ≠ [] ∧
      ∀ c ∈ cs, c ∈ cc.map Prod.snd ∧ c ∈ addc.map fun a => a.2.1 := by
  unfold check_overlapping_specifications_add_cols at h
  by_cases hboth : ((cc.map Prod.snd).filter
      fun c => (addc.map fun a => a.2.1).contains c).isEmpty = true
  · rw [if_pos hboth] at h; exact Except.noConfusion h
  · rw [if_neg hboth] at h
    injection h with h
    refine ⟨_, h.symm, ?_, ?_⟩
    · intro hnil
      exact hboth (by rw [hnil]; rfl)
    · intro c hc
      have := List.mem_filter.mp hc
      exact ⟨this.1, by simpa using this.2⟩

theorem check_addcols_disjoint (cc : List (String × String))
    (addc : List (String × String × String)) (u : Unit)
    (h : check_overlapping_specifications_add_cols cc addc = .ok u)
    (c : String) (hc : c ∈ cc.map Prod.snd)
    (hcadd : c ∈ addc.map fun a => a.2.1) : False := by
  unfold check_overlapping_specifications_add_cols at h
  by_cases hboth : ((cc.map Prod.snd).filter
      fun c => (addc.map fun a => a.2.1).contains c).isEmpty = true
  · have hnil := List.isEmpty_iff.mp hboth
    have : c ∈ ((cc.map Prod.snd).filter
        fun c => (addc.map fun a => a.2.1).contains c) :=
      List.mem_filter.mpr ⟨hc, by simpa using hcadd⟩
    rw [hnil] at this
    exact absurd this (List.not_mem_nil c)
  · rw [if_neg hboth] at h; exact Except.noConfusion h

/-- C7: if a mandatory dimension is covered by neither `coords_cols` nor
`coords_defaults`, or a dimension appears in both, or an auxiliary-coordinate
source column coincides with a dimension source column, then
`read_wide_csv_file_if` fails with a validation error identifying the
offending dimension / columns, uniformly in the CSV contents — i.e. before
any CSV reading can matter. -/
theorem specification_checks_c7 {R : Type}
    (mapU : DFrame → List (String × R) → XrAttrs → DFrame)
    (cf : Value → Value → ℚ)
    (cc : List (String × String)) (addc : List (String × String × String))
    (cd : List (String × Value)) (terms : List (String × String))
    (mapping : Option (List (String × R)))
    (filling : Option (List (String × List (String × List (Value × Value)))))
    (fk fr : List FilterSpec) (md : List (String × String)) (fmt : String)
    (hviol :
      (∃ d ∈ INTERCHANGE_FORMAT_MANDATORY_COLUMNS,
          cc.lookup d = none ∧ cd.lookup d = none) ∨
      (∃ k ∈ cc.map Prod.fst, (cd.lookup k).isSome = true) ∨
      (∃ c ∈ cc.map Prod.snd, c ∈ addc.map fun a => a.2.1)) :
    ∃ e : ConvError,
      (∀ csv : DFrame,
        read_wide_csv_file_if mapU cf csv cc addc cd terms mapping filling
          fk fr md fmt = .error e) ∧
      (match e with
       | .mandatoryMissing d =>
         d ∈ INTERCHANGE_FORMAT_MANDATORY_COLUMNS ∧
           cc.lookup d = none ∧ cd.lookup d = none
       | .overlappingSpec ks =>
         ks ≠ [] ∧ ∀ k ∈ ks, k ∈ cc.map Prod.fst ∧ (cd.lookup k).isSome = true
       | .overlappingAddCols cs =>
         cs ≠ [] ∧ ∀ c ∈ cs, c ∈ cc.map Prod.snd ∧ c ∈ addc.map fun a => a.2.1
       | _ => False) := by
  cases hm : check_mandatory_dimensions cc cd with
  | error e =>
    obtain ⟨d, he, hmem, h1, h2⟩ := check_mandatory_error cc cd e hm
    refine ⟨e, fun csv => ?_, ?_⟩
    · unfold read_wide_csv_file_if
      rw [hm]
      rfl
    · rw [he]
      exact ⟨hmem, h1, h2⟩
  | ok u =>
    cases ho : check_overlapping_specifications cc cd with
    | error e =>
      obtain ⟨ks, he, hne, hks⟩ := check_overlap_error cc cd e ho
      refine ⟨e, fun csv => ?_, ?_⟩
      · simp only [read_wide_csv_file_if, hm, exceptBind_ok, ho, exceptBind_err]
      · rw [he]
        exact ⟨hne, hks⟩
    | ok u2 =>
      by_cases haddc : addc.isEmpty = true
      · exfalso
        rcases hviol with ⟨d, hd, h1, h2⟩ | ⟨k, hk, hsome⟩ | ⟨c, hc, hcadd⟩
        · exact check_mandatory_covers cc cd u hm d hd h1 h2
        · exact check_overlap_disjoint cc cd u2 ho k hk hsome
        · rw [List.isEmpty_iff.mp haddc] at hcadd
          exact absurd hcadd (List.not_mem_nil c)
      · cases ha : check_overlapping_specifications_add_cols cc addc with
        | error e =>
          obtain ⟨cs, he, hne, hcs⟩ := check_addcols_error cc addc e ha
          refine ⟨e, fun csv => ?_, ?_⟩
          · simp only [read_wide_csv_file_if, hm, exceptBind_ok, ho]
            rw [if_neg haddc, ha]
            rfl
          · rw [he]
            exact ⟨hne, hcs⟩
        | ok u3 =>
          exfalso
          rcases hviol with ⟨d, hd, h1, h2⟩ | ⟨k, hk, hsome⟩ | ⟨c, hc, hcadd⟩
          · exact check_mandatory_covers cc cd u hm d hd h1 h2
          · exact check_overlap_disjoint cc cd u2 ho k hk hsome
          · exact check_addcols_disjoint cc addc u3 ha c hc hcadd

/-- Witness for C7 at a concrete specification missing the mandatory
`category` dimension. -/
theorem specification_checks_c7_witness :
    ∃ e : ConvError,
      (∀ csv : DFrame,
        read_wide_csv_file_if mapUW cfW csv [("area", "area")] [] [] []
          none none [] [] [] "%Y" = .error e) ∧
      (match e with
       | .mandatoryMissing d =>
         d ∈ INTERCHANGE_FORMAT_MANDATORY_COLUMNS ∧
           List.lookup d [("area", "area")] = none ∧
           List.lookup d ([] : List (String × Value)) = none
       | .overlappingSpec ks =>
         ks ≠ [] ∧ ∀ k ∈ ks, k ∈ List.map Prod.fst [("area", "area")] ∧
           (List.lookup k ([] : List (String × Value))).isSome = true
       | .overlappingAddCols cs =>
         cs ≠ [] ∧ ∀ c ∈ cs, c ∈ List.map Prod.snd [("area", "area")] ∧
           c ∈ List.map (fun a => a.2.1) ([] : List (String × String × String))
       | _ => False) :=
  specification_checks_c7 mapUW cfW [("area", "area")] [] [] [] none none
    [] [] [] "%Y" (Or.inl ⟨"category", by decide, by decide, by decide⟩)

/-- C1: converting a wide table with columns `area, category, entity, unit,
2019, 2020` under `coords_cols` mapping each dimension to its same-named
column and terminologies ISO3 / IPCC2006 succeeds for every row contents,
with output columns exactly `area (ISO3), category (IPCC2006), entity, unit,
2019, 2020` in that order and the `dimensions` attrs entry listing exactly
the four non-time columns. -/
theorem convert_wide_c1 {R : Type}
    (mapU : DFrame → List (String × R) → XrAttrs → DFrame)
    (cf : Value → Value → ℚ) (rows : List (ℕ × Row)) :
    (convert_wide_dataframe_if mapU cf
        ⟨["area", "category", "entity", "unit", "2019", "2020"], rows⟩
        ccC1 [] [] termsC1 none none [] [] [] "%Y" none).toOption.map
        (fun out => (out.data.cols, out.meta.dimensions)) =
      some (["area (ISO3)", "category (IPCC2006)", "entity", "unit",
             "2019", "2020"],
            ["area (ISO3)", "category (IPCC2006)", "entity", "unit"]) := rfl

/-- C3: `filter_data` keeps exactly the rows that match some keep filter (all
conditions of a filter ANDed; no keep filter means keep-all) and match no
removal filter, preserving order and re-indexing the survivors contiguously
from 0; in particular the keep filter `area ∈ [USA, DEU]` retains the USA and
DEU rows re-indexed 0..1, and the removal filter `scenario = HISTORY` removes
exactly the HISTORY rows. -/
theorem filter_data_c3 :
    (∀ (data : DFrame) (fk fr : List FilterSpec),
      filter_data data fk fr =
        ⟨data.cols,
         resetIndex (data.rows.filter fun ir => survives fk fr ir.2)⟩ ∧
      (filter_data data fk fr).rows.map Prod.fst =
        List.range (filter_data data fk fr).rows.length) ∧
    filter_data dfKeepC3 [keepC3] [] =
      ⟨["area", "data"],
       [(0, [("area", .str "USA"), ("data", .num 1)]),
        (1, [("area", .str "DEU"), ("data", .num 2)])]⟩ ∧
    filter_data dfRemC3 [] [remC3] =
      ⟨["scenario", "data"],
       [(0, [("scenario", .str "PROJ"), ("data", .num 2)])]⟩ :=
  ⟨fun data fk fr =>
    ⟨filter_data_spec data fk fr, filter_data_index data fk fr⟩,
   by decide, by decide⟩

/-- C4: `alias` on a single name returns the name resolved through
`translations` (the name itself if untranslated) when the resolved name is an
allowed dimension, and fails with a dimension-not-existing error carrying the
resolved name otherwise; a sequence is resolved element-wise in order, the
first failure aborting. In particular `alias "area" {} {"area (ISO3)"}` fails
naming `area`, and `alias "area" {"area": "area (ISO3)"} {"area (ISO3)"}`
returns `area (ISO3)`. -/
theorem alias_c4 :
    (∀ (d : String) (translations : List (String × String))
        (dims : List String),
      translateKey translations d ∈ dims →
        aliasStr d translations dims = .ok (translateKey translations d)) ∧
    (∀ (d : String) (translations : List (String × String))
        (dims : List String),
      translateKey translations d ∉ dims →
        aliasStr d translations dims = .error (translateKey translations d)) ∧
    (∀ (l : List String) (translations : List (String × String))
        (dims : List String),
      aliasList l translations dims =
        l.mapM fun d => aliasStr d translations dims) ∧
    aliasStr "area" [] ["area (ISO3)"] = .error "area" ∧
    aliasStr "area" [("area", "area (ISO3)")] ["area (ISO3)"] =
      .ok "area (ISO3)" := by
  refine ⟨?_, ?_, aliasList_eq_mapM, rfl, rfl⟩
  · intro d translations dims h
    show (if translateKey translations d ∈ dims then
        Except.ok (translateKey translations d)
      else Except.error (translateKey translations d)) = _
    exact if_pos h
  · intro d translations dims h
    show (if translateKey translations d ∈ dims then
        Except.ok (translateKey translations d)
      else Except.error (translateKey translations d)) = _
    exact if_neg h

/-- Witness for C4 at concrete inputs: a translated name inside the allowed
dimensions succeeds, an unresolvable one fails with the resolved name. -/
theorem alias_c4_witness :
    aliasStr "cat" [("cat", "category (IPCC2006)")] ["category (IPCC2006)"] =
      .ok (translateKey [("cat", "category (IPCC2006)")] "cat") ∧
    aliasStr "scen" [] ["scenario (general)"] =
      .error (translateKey [] "scen") :=
  ⟨alias_c4.1 "cat" [("cat", "category (IPCC2006)")] ["category (IPCC2006)"]
      (by decide),
   alias_c4.2.1 "scen" [] ["scenario (general)"] (by decide)⟩

/-- C6: `sort_columns_and_rows` is idempotent — re-applying it to its own
output with the dimension list it returned reproduces exactly the same table
and the same dimension list (for distinct dimension names and distinct
column names). -/
theorem sort_columns_and_rows_c6 (data : DFrame) (dimensions : List String)
    (hnd : dimensions.Nodup) (hnc : data.cols.Nodup) :
    sort_columns_and_rows (sort_columns_and_rows data dimensions).1
        (sort_columns_and_rows data dimensions).2 =
      sort_columns_and_rows data dimensions :=
  sort_columns_and_rows_idem data dimensions hnd hnc

/-- Witness for C6 at a concrete unsorted table. -/
theorem sort_columns_and_rows_c6_witness :
    sort_columns_and_rows (sort_columns_and_rows dfC6 dimsC6).1
        (sort_columns_and_rows dfC6 dimsC6).2 =
      sort_columns_and_rows dfC6 dimsC6 :=
  sort_columns_and_rows_c6 dfC6 dimsC6 (by decide) (by decide)

/-- C2: `harmonize_units` rewrites every row according to `harmonizedRow`:
rows of an entity with at most one distinct unit, and rows already carrying
the entity's first-occurring unit, are untouched; every other row has all
data-bearing columns multiplied by the conversion factor to the first unit
and its unit column rewritten to the first unit (first-occurrence order over
the entity's rows, top to bottom). In particular two CO2 rows with units Gg
(value 1) and Mg (value 1000) both end with unit Gg and value 1. -/
theorem harmonize_units_c2 :
    (∀ (convFactor : Value → Value → ℚ) (df : DFrame)
        (dimensions : List String) (attrs : XrAttrs),
      entityColOf attrs ≠ unitColOf attrs →
      entityColOf attrs ∉ dataColsOf df.cols dimensions →
      (∀ ir ∈ df.rows, unitColOf attrs ∈ rowKeys ir.2) →
      harmonize_units convFactor df dimensions attrs =
        ⟨df.cols,
         df.rows.map
           (harmonizedRow convFactor (entityColOf attrs) (unitColOf attrs)
             (dataColsOf df.cols dimensions) df.rows)⟩) ∧
    harmonize_units cfMgC2 dfC2 ["entity", "unit"] XrAttrs.empty =
      ⟨["entity", "unit", "2019"],
       [(0, [("entity", .str "CO2"), ("unit", .str "Gg"), ("2019", .num 1)]),
        (1, [("entity", .str "CO2"), ("unit", .str "Gg"),
             ("2019", .num 1)])]⟩ :=
  ⟨harmonize_units_spec, by decide⟩

/-- Witness for C2: the general per-row characterization applied at the
concrete CO2 Gg/Mg table. -/
theorem harmonize_units_c2_witness :
    harmonize_units cfMgC2 dfC2 ["entity", "unit"] XrAttrs.empty =
      ⟨dfC2.cols,
       dfC2.rows.map
         (harmonizedRow cfMgC2 (entityColOf XrAttrs.empty)
           (unitColOf XrAttrs.empty)
           (dataColsOf dfC2.cols ["entity", "unit"]) dfC2.rows)⟩ :=
  harmonize_units_c2.1 cfMgC2 dfC2 ["entity", "unit"] XrAttrs.empty
    (by decide) (by decide) (by decide)

/-- C5 counterexample: the array-level alias key is `dim.split("(")[0][:-1]`,
not the substring before `" ("`. For the axis name `"a( (t)"` (which contains
`" ("`) the substring before `" ("` is `"a("`, but the computed mapping has
no entry for `"a("` — the entry sits at the key `""`. Moreover with two axis
names sharing a short name the claimed entry for the first one is absent
(the dict keeps only the last). -/
theorem dim_alias_translations_c5_counterexample :
    strContainsSub "a( (t)" " (" = true ∧
    (dim_alias_translations ["a( (t)"]).lookup "a(" = none ∧
    (dim_alias_translations ["a( (t)"]).lookup "" = some "a( (t)" ∧
    (dim_alias_translations ["area (A)", "area (B)"]).lookup "area" =
      some "area (B)" := by decide

/-- C5 amended: `dim_alias_translations` maps, for every axis name containing
`" ("`, the key `split("(")[0][:-1]` to that axis name — provided these keys
are pairwise distinct — and contains nothing else; on well-formed names
`"<d> (<t>)"` whose base `d` contains no `(`, that key is exactly the
substring `d` before `" ("`. -/
theorem dim_alias_translations_c5_amended (dims : List String)
    (hnd : ((dims.filter fun d => strContainsSub d " (").map keyOf).Nodup) :
    (∀ d ∈ dims, strContainsSub d " (" = true →
        (dim_alias_translations dims).lookup (keyOf d) = some d) ∧
    (∀ k v, (dim_alias_translations dims).lookup k = some v →
        v ∈ dims ∧ strContainsSub v " (" = true ∧ k = keyOf v) ∧
    (∀ a b : String, strContainsSub a "(" = false →
        keyOf (a ++ " (" ++ b) = a) := by
  refine ⟨?_, ?_, keyOf_wellformed⟩
  · intro d hd hpd
    exact foldInsert_maps dims [] hnd d hd hpd
  · intro k v h
    refine foldInsert_provenance dims
      (fun k v => v ∈ dims ∧ strContainsSub v " (" = true ∧ k = keyOf v)
      [] ?_ (fun d hd hpd => ⟨hd, hpd, rfl⟩) k v h
    intro k v hkv
    exact absurd hkv (by simp)

/-- Witness for C5 amended at a concrete well-formed axis-name list. -/
theorem dim_alias_translations_c5_witness :
    (dim_alias_translations
        ["area (ISO3)", "category (IPCC2006)", "entity"]).lookup
      (keyOf "area (ISO3)") = some "area (ISO3)" ∧
    keyOf ("area" ++ " (" ++ "ISO3)") = "area" :=
  ⟨(dim_alias_translations_c5_amended
      ["area (ISO3)", "category (IPCC2006)", "entity"] (by decide)).1
      "area (ISO3)" (by decide) (by decide),
   (dim_alias_translations_c5_amended
      ["area (ISO3)", "category (IPCC2006)", "entity"] (by decide)).2.2
      "area" "ISO3)" (by decide)⟩

theorem read_wide_csv_eq (csv : DFrame) (cc : List (String × String))
    (addc : List (String × String × String)) (fmt : String) :
    read_wide_csv csv cc addc fmt =
      (if ((cc.map Prod.snd).filter fun c =>
          !((csv.cols.filter fun c =>
              (cc.map Prod.snd).contains c ||
              ((addc.map fun a => a.2.1).contains c) ||
              ((csv.cols.filter
                  fun c2 => matches_time_format c2 fmt).contains c)).contains
            c)).isEmpty then
        .ok
          (⟨csv.cols.filter fun c =>
              (cc.map Prod.snd).contains c ||
              ((addc.map fun a => a.2.1).contains c) ||
              ((csv.cols.filter
                  fun c2 => matches_time_format c2 fmt).contains c),
            (csv.rows.map fun ir =>
              (ir.1,
               coerceCols
                 (csv.cols.filter fun c2 => matches_time_format c2 fmt)
                 ir.2)).map
              fun ir =>
                (ir.1,
                 selectCols
                   (csv.cols.filter fun c =>
                     (cc.map Prod.snd).contains c ||
                     ((addc.map fun a => a.2.1).contains c) ||
                     ((csv.cols.filter
                         fun c2 => matches_time_format c2 fmt).contains c))
                   ir.2)⟩,
           csv.cols.filter fun c2 => matches_time_format c2 fmt)
      else
        .error (.missingColumns ((cc.map Prod.snd).filter fun c =>
          !((csv.cols.filter fun c =>
              (cc.map Prod.snd).contains c ||
              ((addc.map fun a => a.2.1).contains c) ||
              ((csv.cols.filter
                  fun c2 => matches_time_format c2 fmt).contains c)).contains
            c)))) := rfl

theorem c8_missing_mem (csv : DFrame) (cc : List (String × String))
    (addc : List (String × String × String)) (fmt : String) (c : String) :
    c ∈ ((cc.map Prod.snd).filter fun c =>
        !((csv.cols.filter fun c =>
            (cc.map Prod.snd).contains c ||
            ((addc.map fun a => a.2.1).contains c) ||
            ((csv.cols.filter
                fun c2 => matches_time_format c2 fmt).contains c)).contains
          c)) ↔
      c ∈ cc.map Prod.snd ∧ c ∉ csv.cols := by
  rw [List.mem_filter]
  constructor
  · rintro ⟨h1, h2⟩
    rw [Bool.not_eq_true'] at h2
    refine ⟨h1, fun hmem => ?_⟩
    have hcont : (cc.map Prod.snd).contains c = true := by simpa using h1
    have hmem2 : c ∈ csv.cols.filter fun c =>
        (cc.map Prod.snd).contains c ||
        ((addc.map fun a => a.2.1).contains c) ||
        ((csv.cols.filter
            fun c2 => matches_time_format c2 fmt).contains c) :=
      List.mem_filter.mpr
        ⟨hmem, by rw [Bool.or_eq_true, Bool.or_eq_true]; exact Or.inl (Or.inl hcont)⟩
    have := (by simpa using hmem2 :
      ((csv.cols.filter fun c =>
          (cc.map Prod.snd).contains c ||
          ((addc.map fun a => a.2.1).contains c) ||
          ((csv.cols.filter
              fun c2 => matches_time_format c2 fmt).contains c)).contains
        c) = true)
    rw [h2] at this
    exact Bool.false_ne_true this
  · rintro ⟨h1, h2⟩
    refine ⟨h1, ?_⟩
    rw [Bool.not_eq_true']
    have : c ∉ csv.cols.filter fun c =>
        (cc.map Prod.snd).contains c ||
        ((addc.map fun a => a.2.1).contains c) ||
        ((csv.cols.filter
            fun c2 => matches_time_format c2 fmt).contains c) :=
      fun hmem => h2 (List.mem_filter.mp hmem).1
    simpa using this

/-- C8 counterexample: only the source columns of `coords_cols` are checked
for absence — a missing `add_coords_cols` source column (here `confCol`) does
not make `read_wide_csv` fail, contrary to the claim. -/
theorem read_wide_csv_c8_counterexample :
    "confCol" ∈ List.map (fun a => a.2.1)
        ([("conf", "confCol", "area")] : List (String × String × String)) ∧
    "confCol" ∉ (⟨["area"], []⟩ : DFrame).cols ∧
    (read_wide_csv ⟨["area"], []⟩ [("area", "area")]
        [("conf", "confCol", "area")] "%Y").toOption.isSome = true := by
  decide

/-- C8 amended: on success the kept columns are exactly the input columns
referenced by the specification (a `coords_cols` or `add_coords_cols` source
column) or recognized as time columns, in input order; and the conversion
fails with an error naming the missing columns iff some `coords_cols` source
column (only those) is absent, the named columns being exactly the absent
`coords_cols` source columns. -/
theorem read_wide_csv_c8_amended (csv : DFrame) (cc : List (String × String))
    (addc : List (String × String × String)) (fmt : String) :
    (∀ df tc, read_wide_csv csv cc addc fmt = .ok (df, tc) →
      df.cols = csv.cols.filter fun c =>
        (cc.map Prod.snd).contains c ||
        ((addc.map fun a => a.2.1).contains c) ||
        ((csv.cols.filter
            fun c2 => matches_time_format c2 fmt).contains c)) ∧
    ((∃ c ∈ cc.map Prod.snd, c ∉ csv.cols) ↔
      ∃ miss, read_wide_csv csv cc addc fmt = .error (.missingColumns miss) ∧
        miss ≠ [] ∧ ∀ c, c ∈ miss ↔ c ∈ cc.map Prod.snd ∧ c ∉ csv.cols) := by
  constructor
  · intro df tc h
    rw [read_wide_csv_eq] at h
    split at h
    · injection h with h
      simp only [Prod.mk.injEq] at h
      rw [← h.1]
    · exact Except.noConfusion h
  · constructor
    · rintro ⟨c, hc, hnc⟩
      have hcmem : c ∈ ((cc.map Prod.snd).filter fun c =>
          !((csv.cols.filter fun c =>
              (cc.map Prod.snd).contains c ||
              ((addc.map fun a => a.2.1).contains c) ||
              ((csv.cols.filter
                  fun c2 => matches_time_format c2 fmt).contains c)).contains
            c)) := (c8_missing_mem csv cc addc fmt c).mpr ⟨hc, hnc⟩
      have hne : ¬(((cc.map Prod.snd).filter fun c =>
          !((csv.cols.filter fun c =>
              (cc.map Prod.snd).contains c ||
              ((addc.map fun a => a.2.1).contains c) ||
              ((csv.cols.filter
                  fun c2 => matches_time_format c2 fmt).contains c)).contains
            c)).isEmpty = true) := by
        intro he
        rw [List.isEmpty_iff.mp he] at hcmem
        exact absurd hcmem (List.not_mem_nil c)
      refine ⟨_, ?_, ?_, fun c => c8_missing_mem csv cc addc fmt c⟩
      · rw [read_wide_csv_eq, if_neg hne]
      · intro hnil
        rw [hnil] at hcmem
        exact absurd hcmem (List.not_mem_nil c)
    · rintro ⟨miss, herr, hne, hiff⟩
      obtain ⟨c, hcmem⟩ := List.exists_mem_of_ne_nil miss hne
      exact ⟨c, (hiff c).mp hcmem⟩

/-- Witness for C8 amended at a concrete CSV: the success case keeps exactly
the referenced and time columns, and a missing `coords_cols` source column
(`pop`) yields the missing-columns error naming it. -/
theorem read_wide_csv_c8_witness :
    ((⟨["area", "extra", "2019"],
        []⟩ : DFrame).cols.filter fun c =>
       ((List.map Prod.snd [("area", "area")]).contains c ||
        ((List.map (fun a => a.2.1)
            ([] : List (String × String × String))).contains c) ||
        (((⟨["area", "extra", "2019"], []⟩ : DFrame).cols.filter
            fun c2 => matches_time_format c2 "%Y").contains c))) =
      ["area", "2019"] ∧
    (∃ miss,
      read_wide_csv ⟨["area"], []⟩ [("area", "area"), ("pop", "popCol")] []
          "%Y" = .error (.missingColumns miss) ∧
      miss ≠ [] ∧
      ∀ c, c ∈ miss ↔
        c ∈ List.map Prod.snd [("area", "area"), ("pop", "popCol")] ∧
        c ∉ (⟨["area"], []⟩ : DFrame).cols) := by
  constructor
  · decide
  · exact (read_wide_csv_c8_amended ⟨["area"], []⟩
      [("area", "area"), ("pop", "popCol")] [] "%Y").2.mp
      ⟨"popCol", by decide, by decide⟩

theorem map_metadata_snd {R : Type}
    (mapUnordered : DFrame → List (String × R) → XrAttrs → DFrame)
    (df : DFrame) (mm : List (String × R)) (attrs : XrAttrs) :
    (map_metadata mapUnordered df mm attrs).2 =
      match mm.lookup "entity" with
      | some _ => mm.filter fun kv => kv.1 ≠ "entity"
      | none => mm := by
  unfold map_metadata
  cases mm.lookup "entity" <;> rfl

theorem convert_wide_ok_fields {R : Type}
    (mapU : DFrame → List (String × R) → XrAttrs → DFrame)
    (cf : Value → Value → ℚ) (dataWide : DFrame)
    (cc : List (String × String)) (addc : List (String × String × String))
    (cd : List (String × Value)) (terms : List (String × String))
    (mapping : Option (List (String × R)))
    (filling : Option (List (String × List (String × List (Value × Value)))))
    (fk fr : List FilterSpec) (md : List (String × String)) (fmt : String)
    (tcs : Option (List String)) (out : WideResult R)
    (hok : convert_wide_dataframe_if mapU cf dataWide cc addc cd terms mapping
        filling fk fr md fmt tcs = .ok out) :
    out.dataWideFinal = dataWide ∧
    ∀ mm, mapping = some mm →
      ∃ df0 attrs0,
        out.mappingFinal = some ((map_metadata mapU df0 mm attrs0).2) := by
  cases hm : check_mandatory_dimensions cc cd with
  | error e =>
    simp only [convert_wide_dataframe_if, hm, exceptBind_err] at hok
    exact Except.noConfusion hok
  | ok u =>
  cases ho : check_overlapping_specifications cc cd with
  | error e =>
    simp only [convert_wide_dataframe_if, hm, exceptBind_ok, ho,
      exceptBind_err] at hok
    exact Except.noConfusion hok
  | ok u2 =>
  simp only [convert_wide_dataframe_if, hm, exceptBind_ok, ho] at hok
  by_cases haddc : addc.isEmpty = true
  · rw [if_pos haddc] at hok
    rw [exceptPure_eq, exceptBind_ok] at hok
    cases hadd : add_dimensions_from_defaults (filter_data dataWide fk fr)
        cd [] with
    | error e =>
      rw [hadd, exceptBind_err] at hok
      exact Except.noConfusion hok
    | ok d1 =>
      rw [hadd, exceptBind_ok] at hok
      cases hmeta : additional_coordinate_metadata addc cc terms with
      | error e =>
        rw [hmeta, exceptBind_err] at hok
        exact Except.noConfusion hok
      | ok addMeta =>
        rw [hmeta, exceptBind_ok] at hok
        injection hok with hok
        refine ⟨?_, ?_⟩
        · rw [← hok]
        · intro mm hmm
          subst hmm
          rw [← hok]
          exact ⟨_, _, rfl⟩
  · rw [if_neg haddc] at hok
    cases hg : check_overlapping_specifications_add_cols cc addc with
    | error e =>
      rw [hg, exceptBind_err] at hok
      exact Except.noConfusion hok
    | ok u3 =>
      rw [hg, exceptBind_ok] at hok
      cases hadd : add_dimensions_from_defaults (filter_data dataWide fk fr)
          cd [] with
      | error e =>
        rw [hadd, exceptBind_err] at hok
        exact Except.noConfusion hok
      | ok d1 =>
        rw [hadd, exceptBind_ok] at hok
        cases hmeta : additional_coordinate_metadata addc cc terms with
        | error e =>
          rw [hmeta, exceptBind_err] at hok
          exact Except.noConfusion hok
        | ok addMeta =>
          rw [hmeta, exceptBind_ok] at hok
          injection hok with hok
          refine ⟨?_, ?_⟩
          · rw [← hok]
          · intro mm hmm
            subst hmm
            rw [← hok]
            exact ⟨_, _, rfl⟩

/-- C9: `map_metadata` pops the `"entity"` key from the caller's
`meta_mapping` dict — whenever `"entity"` is one of its keys, the dict state
after the call is the original with the `"entity"` entry removed, so looking
up `"entity"` afterwards finds nothing; consequently a successful
`convert_wide_dataframe_if` leaves a caller-supplied `coords_value_mapping`
containing `"entity"` in that popped state rather than unchanged. -/
theorem map_metadata_c9 :
    (∀ (R : Type) (mapU : DFrame → List (String × R) → XrAttrs → DFrame)
        (df : DFrame) (mm : List (String × R)) (attrs : XrAttrs) (rule : R),
      mm.lookup "entity" = some rule →
      (map_metadata mapU df mm attrs).2 =
          mm.filter (fun kv => kv.1 ≠ "entity") ∧
        ((map_metadata mapU df mm attrs).2).lookup "entity" = none) ∧
    (∀ (R : Type) (mapU : DFrame → List (String × R) → XrAttrs → DFrame)
        (cf : Value → Value → ℚ) (dataWide : DFrame)
        (cc : List (String × String)) (addc : List (String × String × String))
        (cd : List (String × Value)) (terms : List (String × String))
        (mm : List (String × R))
        (filling :
          Option (List (String × List (String × List (Value × Value)))))
        (fk fr : List FilterSpec) (md : List (String × String)) (fmt : String)
        (tcs : Option (List String)) (out : WideResult R) (rule : R),
      mm.lookup "entity" = some rule →
      convert_wide_dataframe_if mapU cf dataWide cc addc cd terms (some mm)
          filling fk fr md fmt tcs = .ok out →
      out.mappingFinal = some (mm.filter fun kv => kv.1 ≠ "entity")) := by
  refine ⟨map_metadata_final, ?_⟩
  intro R mapU cf dataWide cc addc cd terms mm filling fk fr md fmt tcs out
    rule hrule hok
  obtain ⟨df0, attrs0, hmf⟩ :=
    (convert_wide_ok_fields mapU cf dataWide cc addc cd terms (some mm)
      filling fk fr md fmt tcs out hok).2 mm rfl
  rw [hmf, map_metadata_snd, hrule]

/-- Witness for C9 at a concrete mapping dict containing `"entity"`. -/
theorem map_metadata_c9_witness :
    (map_metadata mapUW dfW9 mmW9 XrAttrs.empty).2 =
        mmW9.filter (fun kv => kv.1 ≠ "entity") ∧
    outW9.mappingFinal = some (mmW9.filter fun kv => kv.1 ≠ "entity") :=
  ⟨(map_metadata_c9.1 Unit mapUW dfW9 mmW9 XrAttrs.empty () (by decide)).1,
   map_metadata_c9.2 Unit mapUW cfW dfW9 ccW9 [] [] [] mmW9 none [] [] []
     "%Y" none outW9 () (by decide) (by rfl)⟩

/-- C10: `convert_wide_dataframe_if` never modifies its input frame — on
success the final state of the caller's `data_wide` argument equals the input
— whereas the long-format path mutates the caller's frame in place: in the
concrete example the caller's object ends up with rows filtered and
re-indexed, the default-valued column added, columns renamed, and the time
column rewritten through the datetime conversion, so it differs from the
input. -/
theorem frame_effects_c10 :
    (∀ (R : Type) (mapU : DFrame → List (String × R) → XrAttrs → DFrame)
        (cf : Value → Value → ℚ) (dataWide : DFrame)
        (cc : List (String × String)) (addc : List (String × String × String))
        (cd : List (String × Value)) (terms : List (String × String))
        (mapping : Option (List (String × R)))
        (filling :
          Option (List (String × List (String × List (Value × Value)))))
        (fk fr : List FilterSpec) (md : List (String × String)) (fmt : String)
        (tcs : Option (List String)) (out : WideResult R),
      convert_wide_dataframe_if mapU cf dataWide cc addc cd terms mapping
          filling fk fr md fmt tcs = .ok out →
      out.dataWideFinal = dataWide) ∧
    convert_long_dataframe_if_state mapUW cfW toDTC10 strFC10 dataLongC10
        ccC10 [] cdC10 termsC10 none none [] [remC10] [] =
      .ok longFinalC10 ∧
    longFinalC10 ≠ dataLongC10 := by
  refine ⟨?_, by rfl, by decide⟩
  intro R mapU cf dataWide cc addc cd terms mapping filling fk fr md fmt tcs
    out hok
  exact (convert_wide_ok_fields mapU cf dataWide cc addc cd terms mapping
    filling fk fr md fmt tcs out hok).1

/-- Witness for C10: the input-preservation part applied at a concrete wide
conversion. -/
theorem frame_effects_c10_witness :
    outW10.dataWideFinal = dfW9 :=
  frame_effects_c10.1 Unit mapUW cfW dfW9 ccW9 [] [] [] none none [] [] []
    "%Y" none outW10 (by rfl)
